import Mathlib

/-!
Shallow embedding of the path-editing engine of `src/index.tsx`
(PatternmakerSVG_V2).  JavaScript numbers are modelled by exact rationals
(`ℚ`); every definition follows the corresponding source function.  Where the
source compares square-rooted distances (`Math.sqrt` applied to squared
distances before a `<` comparison), the embedding compares the squared
distances directly: the square root is strictly monotone on nonnegative
reals, so every comparison, minimum selection and branch taken is identical.
-/

set_option maxRecDepth 4000

namespace PatternSVG

/-- `type Point = { x: number; y: number }` (src/index.tsx line 4). -/
structure Point where
  x : ℚ
  y : ℚ
deriving DecidableEq, Repr

/-- `type NodeType = 'corner' | 'smooth'` (line 5). -/
inductive NodeType where
  | corner
  | smooth
deriving DecidableEq, Repr

/-- `type Node = { anchor; ctrl1; ctrl2; type }` (lines 7–12). -/
structure Node where
  anchor : Point
  ctrl1 : Point
  ctrl2 : Point
  type : NodeType
deriving DecidableEq, Repr

/-- `type HistoryState = { nodes; isPathClosed }` (lines 14–17). -/
structure HistoryState where
  nodes : List Node
  isPathClosed : Bool
deriving DecidableEq, Repr

/-- `type ViewState = { zoom; pan }` (lines 19–22). -/
structure ViewState where
  zoom : ℚ
  pan : Point
deriving DecidableEq, Repr

/-- `symmetryState` (line 144): `'inactive' | 'picking-edge'`. -/
inductive SymmetryState where
  | inactive
  | pickingEdge
deriving DecidableEq, Repr

/-- The slice of the `App` component state that the Path Model, History
Manager and symmetry operation read and write (lines 135–152). -/
structure EditorState where
  nodes : List Node
  isPathClosed : Bool
  history : List HistoryState
  historyIndex : ℕ
  symmetryState : SymmetryState
deriving DecidableEq, Repr

/-- User-visible failure reports of the symmetry operation; `notStraightEdge`
corresponds to the `alert(t('notStraightEdgeError'))` call (line 252). -/
inductive SymmetryReport where
  | notStraightEdge
deriving DecidableEq, Repr

/-- `const SMOOTHING_FACTOR = 0.25` (line 24). -/
def SMOOTHING_FACTOR : ℚ := 1/4

/-- `const MIN_ZOOM = 0.1` (line 30). -/
def MIN_ZOOM : ℚ := 1/10

/-- `const MAX_ZOOM = 10` (line 31). -/
def MAX_ZOOM : ℚ := 10

/-- Default node used to read a list at an index (the source indexes plain
arrays; all indices used are in range). -/
def dfltNode : Node := ⟨⟨0, 0⟩, ⟨0, 0⟩, ⟨0, 0⟩, NodeType.corner⟩

/-- `nodes[i]` on a JavaScript array, at the in-range indices the source uses. -/
def getNode (nodes : List Node) (i : ℕ) : Node := nodes.getD i dfltNode

/-- Squared Euclidean distance between two points; the source computes
`Math.pow(pt.x - point.x, 2) + Math.pow(pt.y - point.y, 2)` (line 93). -/
def distSq (a b : Point) : ℚ := (a.x - b.x) ^ 2 + (a.y - b.y) ^ 2

/-- `getPointOnCubicBezier` (lines 70–82): cubic Bernstein evaluation. -/
def getPointOnCubicBezier (t : ℚ) (p0 p1 p2 p3 : Point) : Point :=
  let u := 1 - t
  let tt := t * t
  let uu := u * u
  let uuu := uu * u
  let ttt := tt * t
  { x := uuu * p0.x + 3 * uu * t * p1.x + 3 * u * tt * p2.x + ttt * p3.x,
    y := uuu * p0.y + 3 * uu * t * p1.y + 3 * u * tt * p2.y + ttt * p3.y }

/-- Loop body of `findClosestPointOnCubicBezier` (lines 90–98).  The
accumulator is `none` while `minDistanceSq` is still `Infinity`; a finite
sample distance always beats `Infinity`, so the `none` case always takes the
sample. -/
def closestSampleStep (point p0 p1 p2 p3 : Point) (acc : Option (ℚ × ℚ))
    (i : ℕ) : Option (ℚ × ℚ) :=
  let t : ℚ := (i : ℚ) / 30
  let pt := getPointOnCubicBezier t p0 p1 p2 p3
  let dSq := distSq pt point
  match acc with
  | none => some (dSq, t)
  | some best => if dSq < best.1 then some (dSq, t) else acc

/-- `findClosestPointOnCubicBezier` (lines 85–101): samples `t = i/30` for
`i = 0..30` and keeps the sample of minimal squared distance.  The source
returns `Math.sqrt(minDistanceSq)`; the embedding returns the squared
distance itself (first component), which orders identically.  The fallback
`(0, 0)` is never reached: the loop always runs at least once. -/
def findClosestPointOnCubicBezier (point p0 p1 p2 p3 : Point) : ℚ × ℚ :=
  match (List.range 31).foldl (closestSampleStep point p0 p1 p2 p3) none with
  | some best => best
  | none => (0, 0)

/-- The four control points of segment `i` as read in the symmetry scan and
the insertion scan (lines 224–227 and 379–382):
`p0 = nodes[i].anchor`, `p1 = nodes[i].ctrl2`,
`p2 = nodes[(i+1) % n].ctrl1`, `p3 = nodes[(i+1) % n].anchor`. -/
def segPoints (nodes : List Node) (i : ℕ) : Point × Point × Point × Point :=
  let n := nodes.length
  ((getNode nodes i).anchor, (getNode nodes i).ctrl2,
   (getNode nodes ((i + 1) % n)).ctrl1, (getNode nodes ((i + 1) % n)).anchor)

/-- `toWorld`: `world = (device - pan) / zoom` (lines 204–205). -/
def toWorld (p : Point) (vs : ViewState) : Point :=
  ⟨(p.x - vs.pan.x) / vs.zoom, (p.y - vs.pan.y) / vs.zoom⟩

/-- `handleWheel` (lines 533–550): multiplicative zoom step 1.1 clamped to
`[MIN_ZOOM, MAX_ZOOM]`, early return when the clamped zoom equals the old
zoom, and pointer-anchored pan update. -/
def handleWheel (vs : ViewState) (mouse : Point) (deltaY : ℚ) : ViewState :=
  let zoomFactor : ℚ := 11/10
  let newZoom := if deltaY < 0 then vs.zoom * zoomFactor else vs.zoom / zoomFactor
  let clampedZoom := max MIN_ZOOM (min MAX_ZOOM newZoom)
  if clampedZoom = vs.zoom then vs
  else
    { zoom := clampedZoom,
      pan := ⟨mouse.x - (mouse.x - vs.pan.x) * (clampedZoom / vs.zoom),
              mouse.y - (mouse.y - vs.pan.y) * (clampedZoom / vs.zoom)⟩ }

/-- `reflectPoint` (lines 258–270), with the axis endpoints `pA`, `pB` that
the source closes over passed explicitly.  Implicit line `Ax + By + C = 0`
through `pA`, `pB`; identity when the divisor `D = A² + B²` is zero. -/
def reflectPoint (pA pB p : Point) : Point :=
  let A_coeff := pB.y - pA.y
  let B_coeff := pA.x - pB.x
  let C_coeff := pB.x * pA.y - pB.y * pA.x
  let D_coeff := A_coeff * A_coeff + B_coeff * B_coeff
  if D_coeff = 0 then p
  else
    let val := A_coeff * p.x + B_coeff * p.y + C_coeff
    ⟨p.x - 2 * A_coeff * val / D_coeff, p.y - 2 * B_coeff * val / D_coeff⟩

/-- `updateStateAndHistory` (lines 172–180): truncate the history after the
current index (`history.slice(0, historyIndex + 1)`), push the new snapshot,
and move the index to the new last entry. -/
def updateStateAndHistory (st : EditorState) (newNodes : List Node)
    (newIsPathClosed : Bool) : EditorState :=
  let newHistory := st.history.take (st.historyIndex + 1) ++
    [⟨newNodes, newIsPathClosed⟩]
  { st with
    nodes := newNodes
    isPathClosed := newIsPathClosed
    history := newHistory
    historyIndex := newHistory.length - 1 }

/-- `undo` (lines 552–559): when `historyIndex > 0`, step the index back and
load that snapshot; otherwise do nothing. -/
def undo (st : EditorState) : EditorState :=
  if 0 < st.historyIndex then
    let newIndex := st.historyIndex - 1
    let entry := st.history.getD newIndex ⟨[], false⟩
    { st with
      historyIndex := newIndex
      nodes := entry.nodes
      isPathClosed := entry.isPathClosed }
  else st

/-- `redo` (lines 561–568): when `historyIndex < history.length - 1`, step the
index forward and load that snapshot; otherwise do nothing. -/
def redo (st : EditorState) : EditorState :=
  if st.historyIndex + 1 < st.history.length then
    let newIndex := st.historyIndex + 1
    let entry := st.history.getD newIndex ⟨[], false⟩
    { st with
      historyIndex := newIndex
      nodes := entry.nodes
      isPathClosed := entry.isPathClosed }
  else st

/-- The straightness test of `handleSymmetryEdgePick` (lines 247–249): both
cross products `|(pB-pA) × (ctrl-pA)|` must be below the absolute tolerance
`1e-3`. -/
def isStraightEdge (pA pB ctrlA ctrlB : Point) : Bool :=
  decide (|(pB.x - pA.x) * (ctrlA.y - pA.y) - (pB.y - pA.y) * (ctrlA.x - pA.x)|
      < 1/1000) &&
  decide (|(pB.x - pA.x) * (ctrlB.y - pA.y) - (pB.y - pA.y) * (ctrlB.x - pA.x)|
      < 1/1000)

/-- Loop body of the closest-edge scan (lines 223–233).  The accumulator is
`none` while `closestEdgeIndex` is `-1` / `minDistance` is `Infinity`; any
finite distance beats `Infinity`.  The source compares the rooted distances;
squared distances order identically. -/
def closestEdgeStep (nodes : List Node) (point : Point)
    (acc : Option (ℚ × ℕ)) (i : ℕ) : Option (ℚ × ℕ) :=
  let s := segPoints nodes i
  let r := findClosestPointOnCubicBezier point s.1 s.2.1 s.2.2.1 s.2.2.2
  match acc with
  | none => some (r.1, i)
  | some best => if r.1 < best.1 then some (r.1, i) else acc

/-- The closest-edge scan of `handleSymmetryEdgePick` (lines 220–233):
`none` models `closestEdgeIndex === -1`. -/
def closestEdge (nodes : List Node) (point : Point) : Option ℕ :=
  ((List.range nodes.length).foldl (closestEdgeStep nodes point) none).map
    (fun best => best.2)

/-- `reflectNode` (lines 272–277): reflect all three points of a node across
the axis through `pA`, `pB`. -/
def reflectNode (pA pB : Point) (node : Node) : Node :=
  { anchor := reflectPoint pA pB node.anchor
    ctrl1 := reflectPoint pA pB node.ctrl1
    ctrl2 := reflectPoint pA pB node.ctrl2
    type := node.type }

/-- The `while (currentIndex !== axisNode1Index)` walk of lines 281–285,
written with explicit fuel (the loop advances `(currentIndex + 1) % n` each
step and, starting from `(a + 1) % n` with `a < n`, reaches `a` after
`n - 1 < n` steps, so fuel `n` reproduces it exactly). -/
def bodyPathAux (nodes : List Node) (a : ℕ) : ℕ → ℕ → List Node
  | 0, _ => []
  | fuel + 1, cur =>
    if cur = a then []
    else getNode nodes cur :: bodyPathAux nodes a fuel ((cur + 1) % nodes.length)

/-- Lines 279–286: the "body" of the shape, from `B` forward (wrapping) up to
and including `A`. -/
def bodyPath (nodes : List Node) (a b : ℕ) : List Node :=
  bodyPathAux nodes a nodes.length b ++ [getNode nodes a]

/-- Lines 288–317 of `handleSymmetryEdgePick`: given the chosen axis edge
index `a` (node `A`; node `B` is its successor), build the merged symmetric
node list.  `bodyPath.slice(1, length - 1)` is `drop 1` then
`take (length - 2)`; the `.map(n => ({...n}))` object copies are value
identities. -/
def reflectAndMergeNodes (nodes : List Node) (a : ℕ) : List Node :=
  let n := nodes.length
  let b := (a + 1) % n
  let pA := (getNode nodes a).anchor
  let pB := (getNode nodes b).anchor
  let body := bodyPath nodes a b
  let intermediateNodes := (body.drop 1).take (body.length - 2)
  let mirroredIntermediateNodes :=
    ((intermediateNodes.map (reflectNode pA pB)).reverse).map
      (fun node => { node with ctrl1 := node.ctrl2, ctrl2 := node.ctrl1 })
  let newA := { getNode nodes a with
    ctrl2 := reflectPoint pA pB (getNode nodes a).ctrl1
    type := NodeType.smooth }
  let newB := { getNode nodes b with
    ctrl1 := reflectPoint pA pB (getNode nodes b).ctrl2
    type := NodeType.smooth }
  newA :: mirroredIntermediateNodes ++ newB :: intermediateNodes

/-- `handleSymmetryEdgePick` (lines 214–321) as a state transformer, paired
with the user-visible report (`some notStraightEdge` models the `alert`). -/
def handleSymmetryEdgePick (st : EditorState) (point : Point) :
    EditorState × Option SymmetryReport :=
  if st.isPathClosed = false ∨ st.nodes.length < 3 then
    ({ st with symmetryState := SymmetryState.inactive }, none)
  else
    match closestEdge st.nodes point with
    | none => ({ st with symmetryState := SymmetryState.inactive }, none)
    | some closestEdgeIndex =>
      let a := closestEdgeIndex
      let b := (closestEdgeIndex + 1) % st.nodes.length
      let pA := (getNode st.nodes a).anchor
      let pB := (getNode st.nodes b).anchor
      let ctrlA := (getNode st.nodes a).ctrl2
      let ctrlB := (getNode st.nodes b).ctrl1
      if isStraightEdge pA pB ctrlA ctrlB = false then
        ({ st with symmetryState := SymmetryState.inactive },
         some SymmetryReport.notStraightEdge)
      else
        let combinedNodes := reflectAndMergeNodes st.nodes a
        ({ updateStateAndHistory st combinedNodes true with
            symmetryState := SymmetryState.inactive }, none)

/-- The append branch of `handleMouseUp` (lines 494–515).  The source sets
`dist = Math.hypot(dx, dy) * SMOOTHING_FACTOR` and
`angle = Math.atan2(dy, dx)` and then uses only the products
`dist * Math.cos(angle)` and `dist * Math.sin(angle)`, which equal
`SMOOTHING_FACTOR * dx` and `SMOOTHING_FACTOR * dy` exactly (also when
`dx = dy = 0`, where `atan2(0,0) = 0` and `dist = 0`); the embedding uses
these closed forms. -/
def appendNode (nodes : List Node) (snapped : Point) : List Node :=
  let base : Node :=
    { anchor := snapped
      ctrl1 := ⟨snapped.x - 50, snapped.y⟩
      ctrl2 := ⟨snapped.x + 50, snapped.y⟩
      type := NodeType.corner }
  match nodes.getLast? with
  | none => [base]
  | some prevNode =>
    let dx := snapped.x - prevNode.anchor.x
    let dy := snapped.y - prevNode.anchor.y
    let updatedPrevNode := { prevNode with
      ctrl2 := ⟨prevNode.anchor.x + SMOOTHING_FACTOR * dx,
                prevNode.anchor.y + SMOOTHING_FACTOR * dy⟩ }
    let newNode := { base with
      ctrl1 := ⟨snapped.x - SMOOTHING_FACTOR * dx,
                snapped.y - SMOOTHING_FACTOR * dy⟩ }
    nodes.dropLast ++ [updatedPrevNode, newNode]

/-- Which handle a drag targets (`draggedInfo.type`, restricted to the two
control-point cases of lines 460–476). -/
inductive HandleRole where
  | ctrl1
  | ctrl2
deriving DecidableEq, Repr

/-- Cosine of `Math.atan2(ay, ax)` given `h = Math.hypot(ax, ay)`:
`ax / h`, and `1` when both arguments are zero (`atan2(0,0) = 0`). -/
def dirCos (ax h : ℚ) : ℚ := if h = 0 then 1 else ax / h

/-- Sine of `Math.atan2(ay, ax)` given `h = Math.hypot(ax, ay)`:
`ay / h`, and `0` when both arguments are zero. -/
def dirSin (ay h : ℚ) : ℚ := if h = 0 then 0 else ay / h

/-- The control-point branches of `handleMouseMove` (lines 460–476).
`Math.hypot` has no exact rational counterpart, so the embedding takes a
square-root function `rt` as a parameter (`Math.hypot(a, b) = rt (a² + b²)`);
the theorems constrain `rt` to be correct on exactly the values this call
evaluates it at.  `dirCos`/`dirSin` are the cosine and sine of the
`Math.atan2` direction. -/
def moveHandle (rt : ℚ → ℚ) (node : Node) (snappedPoint : Point)
    (role : HandleRole) : Node :=
  match role with
  | HandleRole.ctrl1 =>
    let moved := { node with ctrl1 := snappedPoint }
    if node.type = NodeType.smooth then
      let ax := node.anchor.x - snappedPoint.x
      let ay := node.anchor.y - snappedPoint.y
      let h := rt (ax ^ 2 + ay ^ 2)
      let d2 := rt ((node.anchor.x - node.ctrl2.x) ^ 2 +
                    (node.anchor.y - node.ctrl2.y) ^ 2)
      { moved with ctrl2 := ⟨node.anchor.x + d2 * dirCos ax h,
                             node.anchor.y + d2 * dirSin ay h⟩ }
    else moved
  | HandleRole.ctrl2 =>
    let moved := { node with ctrl2 := snappedPoint }
    if node.type = NodeType.smooth then
      let ax := node.anchor.x - snappedPoint.x
      let ay := node.anchor.y - snappedPoint.y
      let h := rt (ax ^ 2 + ay ^ 2)
      let d1 := rt ((node.anchor.x - node.ctrl1.x) ^ 2 +
                    (node.anchor.y - node.ctrl1.y) ^ 2)
      { moved with ctrl1 := ⟨node.anchor.x + d1 * dirCos ax h,
                             node.anchor.y + d1 * dirSin ay h⟩ }
    else moved

/-- One de Casteljau interpolation step, e.g.
`p01 = { x: (1-t)*p0.x + t*p1.x, y: (1-t)*p0.y + t*p1.y }` (lines 400–405). -/
def lerpP (t : ℚ) (a b : Point) : Point :=
  ⟨(1 - t) * a.x + t * b.x, (1 - t) * a.y + t * b.y⟩

/-- The node-insertion branch of `handleMouseDown` (lines 392–417), as a
value-level function on the node list: de Casteljau split of segment `index`
at parameter `t`, replacement of the segment's outer handles, and splice of
the new `smooth` node at position `index + 1` (object-identity effects of the
same lines are modelled separately by `insertOnSegmentHeap`). -/
def insertOnSegment (nodes : List Node) (index : ℕ) (t : ℚ) : List Node :=
  let n := nodes.length
  let p0 := (getNode nodes index).anchor
  let p1 := (getNode nodes index).ctrl2
  let p2 := (getNode nodes ((index + 1) % n)).ctrl1
  let p3 := (getNode nodes ((index + 1) % n)).anchor
  let p01 := lerpP t p0 p1
  let p12 := lerpP t p1 p2
  let p23 := lerpP t p2 p3
  let p012 := lerpP t p01 p12
  let p123 := lerpP t p12 p23
  let newAnchor := lerpP t p012 p123
  let newNode : Node := ⟨newAnchor, p012, p123, NodeType.smooth⟩
  let ns1 := nodes.set index { getNode nodes index with ctrl2 := p01 }
  let ns2 := ns1.set ((index + 1) % n) { getNode ns1 ((index + 1) % n) with
    ctrl1 := p23 }
  ns2.insertIdx (index + 1) newNode

/-- Reference semantics for node objects: node objects live in a store and
are addressed by position; the `nodes` array and every history entry hold
references, exactly as the JavaScript arrays hold object references. -/
structure HeapState where
  store : List Node
  nodeIds : List ℕ
  history : List (List ℕ × Bool)
deriving DecidableEq, Repr

/-- Dereference one node object. -/
def readNode (store : List Node) (id : ℕ) : Node := store.getD id dfltNode

/-- Dereference a whole reference list (what rendering or undo would see). -/
def derefNodes (store : List Node) (ids : List ℕ) : List Node :=
  ids.map (readNode store)

/-- Lines 392–419 with object identity made explicit.
`const newNodes = [...nodes]` shallow-copies the array, so `newNodes[i]` is
the same object as `nodes[i]`; the assignments
`newNodes[index].ctrl2 = p01` and `newNodes[(index+1) % n].ctrl1 = p23`
therefore mutate the store at the shared references, and
`newNodes.splice(index + 1, 0, newNode)` inserts a reference to a fresh
object.  `updateStateAndHistory` then appends the new reference list to the
history. -/
def insertOnSegmentHeap (hs : HeapState) (index : ℕ) (t : ℚ)
    (closed : Bool) : HeapState :=
  let nodes := derefNodes hs.store hs.nodeIds
  let n := nodes.length
  let p0 := (getNode nodes index).anchor
  let p1 := (getNode nodes index).ctrl2
  let p2 := (getNode nodes ((index + 1) % n)).ctrl1
  let p3 := (getNode nodes ((index + 1) % n)).anchor
  let p01 := lerpP t p0 p1
  let p12 := lerpP t p1 p2
  let p23 := lerpP t p2 p3
  let p012 := lerpP t p01 p12
  let p123 := lerpP t p12 p23
  let newAnchor := lerpP t p012 p123
  let newNode : Node := ⟨newAnchor, p012, p123, NodeType.smooth⟩
  let idA := hs.nodeIds.getD index 0
  let store1 := hs.store.set idA { readNode hs.store idA with ctrl2 := p01 }
  let idB := hs.nodeIds.getD ((index + 1) % n) 0
  let store2 := store1.set idB { readNode store1 idB with ctrl1 := p23 }
  let newId := store2.length
  let store3 := store2 ++ [newNode]
  let newIds := hs.nodeIds.insertIdx (index + 1) newId
  { store := store3
    nodeIds := newIds
    history := hs.history ++ [(newIds, closed)] }

/-- Contiguous cyclic run of `cnt` original nodes starting at index `start`
(wrapping modulo the length); used to state which nodes the body walk of
lines 281–285 visits. -/
def cyclicSlice (nodes : List Node) (start cnt : ℕ) : List Node :=
  (List.range cnt).map (fun k => getNode nodes ((start + k) % nodes.length))

/-- The default first node appended on an empty canvas: handles offset by
±50 along the x-axis (lines 495–500). -/
def firstNode : Node := ⟨⟨0, 0⟩, ⟨-50, 0⟩, ⟨50, 0⟩, NodeType.corner⟩

/-- Concrete square-root lookup used to instantiate `moveHandle` at a
Pythagorean configuration. -/
def c6rt : ℚ → ℚ := fun q => if q = 25 then 5 else if q = 100 then 10 else 0

/-- Concrete smooth node (anchor at the origin, handles on 3-4-5 and 6-8-10
triangles) used to instantiate `moveHandle`. -/
def c6node : Node := ⟨⟨0, 0⟩, ⟨3, 4⟩, ⟨6, 8⟩, NodeType.smooth⟩

/-- The initial component state (lines 135–152): empty node list, open path,
history `[{nodes: [], isPathClosed: false}]`, index 0, symmetry inactive. -/
def initialState : EditorState :=
  { nodes := []
    isPathClosed := false
    history := [⟨[], false⟩]
    historyIndex := 0
    symmetryState := SymmetryState.inactive }

/-- One append commit: the `handleMouseUp` append branch followed by
`updateStateAndHistory(newNodes, isPathClosed)` (line 515). -/
def applyAppend (st : EditorState) (p : Point) : EditorState :=
  updateStateAndHistory st (appendNode st.nodes p) st.isPathClosed

/-- A sequence of append commits. -/
def applyAppends (st : EditorState) (ps : List Point) : EditorState :=
  ps.foldl applyAppend st

/-- Second node of the concrete two-node open path used to exercise the
insertion aliasing (segment 0 is the straight run from `(0,0)` to `(90,0)`). -/
def c3node1 : Node := ⟨⟨90, 0⟩, ⟨40, 0⟩, ⟨140, 0⟩, NodeType.corner⟩

/-- Concrete heap state after two appends: two node objects in the store,
the live array referencing both, and the history holding the initial empty
snapshot plus the current snapshot, which aliases the same two objects. -/
def c3heap : HeapState :=
  { store := [firstNode, c3node1]
    nodeIds := [0, 1]
    history := [([], false), ([0, 1], false)] }

/-- Fully degenerate node (all three points at the origin): used to build a
closed path on which every Bézier sample coincides, keeping concrete
evaluation of the 31-sample scans cheap. -/
def zeroNode : Node := ⟨⟨0, 0⟩, ⟨0, 0⟩, ⟨0, 0⟩, NodeType.corner⟩

/-- A concrete closed 3-node editor state built from `zeroNode`. -/
def zState : EditorState :=
  { nodes := [zeroNode, zeroNode, zeroNode]
    isPathClosed := true
    history := [⟨[], false⟩]
    historyIndex := 0
    symmetryState := SymmetryState.pickingEdge }

/-- The history invariant the component maintains: the index points at the
last entry, that entry is the live `(nodes, isPathClosed)` state, and entry
0 is the initial empty snapshot. -/
def HistInv (st : EditorState) : Prop :=
  st.historyIndex + 1 = st.history.length ∧
  st.history.getD st.historyIndex ⟨[], false⟩ = ⟨st.nodes, st.isPathClosed⟩ ∧
  st.history.getD 0 ⟨[], false⟩ = ⟨[], false⟩

/-! ## Theorems -/

/-- C9: reflecting across the line through `lineA` and `lineB` is the
identity when the axis is degenerate (`lineA = lineB`, so `A = B = 0` and
the divisor `A² + B²` is zero) and never divides by zero; for a
non-degenerate axis the divisor is strictly positive. -/
theorem reflectPoint_degenerate_guard (pA pB p : Point) :
    (pA = pB →
      pB.y - pA.y = 0 ∧ pA.x - pB.x = 0 ∧ reflectPoint pA pB p = p) ∧
    (pA ≠ pB →
      0 < (pB.y - pA.y) * (pB.y - pA.y) + (pA.x - pB.x) * (pA.x - pB.x)) := by
  constructor
  · rintro rfl
    refine ⟨by ring, by ring, ?_⟩
    simp [reflectPoint]
  · intro hne
    rcases lt_or_eq_of_le (add_nonneg (mul_self_nonneg (pB.y - pA.y))
      (mul_self_nonneg (pA.x - pB.x))) with h | h
    · exact h
    · exfalso
      have h1 : (pB.y - pA.y) * (pB.y - pA.y) = 0 := by
        nlinarith [mul_self_nonneg (pA.x - pB.x)]
      have h2 : (pA.x - pB.x) * (pA.x - pB.x) = 0 := by
        nlinarith [mul_self_nonneg (pB.y - pA.y)]
      have hy := mul_self_eq_zero.mp h1
      have hx := mul_self_eq_zero.mp h2
      apply hne
      obtain ⟨ax, ay⟩ := pA
      obtain ⟨bx, byy⟩ := pB
      simp only [Point.mk.injEq]
      simp only at hx hy
      exact ⟨by linarith, by linarith⟩

/-- Witness for `reflectPoint_degenerate_guard` at concrete axes: a
degenerate axis `(1,2)–(1,2)` returns the input unchanged, and the
non-degenerate axis `(0,2)–(1,3)` has a strictly positive divisor. -/
theorem reflectPoint_degenerate_guard_witness :
    reflectPoint ⟨1, 2⟩ ⟨1, 2⟩ ⟨5, 7⟩ = ⟨5, 7⟩ ∧
    (0 : ℚ) < ((3 : ℚ) - 2) * ((3 : ℚ) - 2) + ((0 : ℚ) - 1) * ((0 : ℚ) - 1) :=
  ⟨((reflectPoint_degenerate_guard ⟨1, 2⟩ ⟨1, 2⟩ ⟨5, 7⟩).1 rfl).2.2,
   (reflectPoint_degenerate_guard ⟨0, 2⟩ ⟨1, 3⟩ ⟨5, 7⟩).2
     (by intro h; rw [Point.mk.injEq] at h; exact absurd h.1 (by norm_num))⟩

/-- Helper: the pointer-anchored pan update keeps the world point under the
pointer fixed, for any nonzero old zoom and new zoom `c`. -/
theorem toWorld_zoomstep (vs : ViewState) (mouse : Point) (c : ℚ)
    (hz : vs.zoom ≠ 0) (hc : c ≠ 0) :
    toWorld mouse ⟨c, ⟨mouse.x - (mouse.x - vs.pan.x) * (c / vs.zoom),
                       mouse.y - (mouse.y - vs.pan.y) * (c / vs.zoom)⟩⟩ =
      toWorld mouse vs := by
  simp only [toWorld, Point.mk.injEq]
  constructor
  · field_simp
    ring
  · field_simp
    ring

/-- C8: a wheel-zoom multiplies or divides the zoom by 1.1 and clamps it to
`[MIN_ZOOM, MAX_ZOOM]`, sets `newPan = d - (d - oldPan) * (newZoom/oldZoom)`,
and keeps the world point under the pointer invariant:
`toWorld d new = toWorld d old` (exactly, over ℚ). -/
theorem handleWheel_zoom_invariant (vs : ViewState) (mouse : Point)
    (deltaY : ℚ) (hz : 0 < vs.zoom) :
    (handleWheel vs mouse deltaY).zoom =
      max MIN_ZOOM (min MAX_ZOOM
        (if deltaY < 0 then vs.zoom * (11/10) else vs.zoom / (11/10))) ∧
    (handleWheel vs mouse deltaY).pan.x =
      mouse.x - (mouse.x - vs.pan.x) *
        ((handleWheel vs mouse deltaY).zoom / vs.zoom) ∧
    (handleWheel vs mouse deltaY).pan.y =
      mouse.y - (mouse.y - vs.pan.y) *
        ((handleWheel vs mouse deltaY).zoom / vs.zoom) ∧
    toWorld mouse (handleWheel vs mouse deltaY) = toWorld mouse vs := by
  have hz' : vs.zoom ≠ 0 := ne_of_gt hz
  simp only [handleWheel]
  split_ifs with hd hc hc
  · refine ⟨hc.symm, ?_, ?_, rfl⟩
    · rw [div_self hz']; ring
    · rw [div_self hz']; ring
  · have hcp : (0:ℚ) < max MIN_ZOOM (min MAX_ZOOM (vs.zoom * (11/10))) :=
      lt_of_lt_of_le (by norm_num [MIN_ZOOM]) (le_max_left _ _)
    exact ⟨rfl, rfl, rfl, toWorld_zoomstep vs mouse _ hz' (ne_of_gt hcp)⟩
  · refine ⟨hc.symm, ?_, ?_, rfl⟩
    · rw [div_self hz']; ring
    · rw [div_self hz']; ring
  · have hcp : (0:ℚ) < max MIN_ZOOM (min MAX_ZOOM (vs.zoom / (11/10))) :=
      lt_of_lt_of_le (by norm_num [MIN_ZOOM]) (le_max_left _ _)
    exact ⟨rfl, rfl, rfl, toWorld_zoomstep vs mouse _ hz' (ne_of_gt hcp)⟩

/-- Witness for `handleWheel_zoom_invariant`: a concrete zoom-in at device
point `(10, 10)` with zoom 1 keeps the world point under the pointer. -/
theorem handleWheel_zoom_invariant_witness :
    (0 : ℚ) < (1 : ℚ) ∧
    toWorld ⟨10, 10⟩ (handleWheel ⟨1, ⟨0, 0⟩⟩ ⟨10, 10⟩ (-1)) =
      toWorld ⟨10, 10⟩ ⟨1, ⟨0, 0⟩⟩ :=
  ⟨by norm_num,
   (handleWheel_zoom_invariant ⟨1, ⟨0, 0⟩⟩ ⟨10, 10⟩ (-1) (by norm_num)).2.2.2⟩

/-- C5 counterexample: appending a node at `(100, 0)` after `firstNode`
(whose outgoing handle sits at distance 50 from its anchor) moves the
previous node's outgoing handle to distance `0.25 × 100 = 25`, so its
pre-existing length is NOT preserved, contrary to the claim. -/
theorem appendNode_prev_handle_length_not_preserved :
    distSq (getNode (appendNode [firstNode] ⟨100, 0⟩) 0).ctrl2
        firstNode.anchor ≠
      distSq firstNode.ctrl2 firstNode.anchor := by
  norm_num [appendNode, getNode, firstNode, distSq, SMOOTHING_FACTOR]

/-- C5 (amended): appending onto a non-empty path places the new node's
incoming handle at distance `SMOOTHING_FACTOR × distance(prevAnchor,
newAnchor)` from the new anchor on the line through the two anchors (on the
previous-anchor side), and moves the previous node's outgoing handle onto
that same line at distance `SMOOTHING_FACTOR × distance(prevAnchor,
newAnchor)` from the previous anchor (its pre-existing length is replaced,
not preserved); anchors, the previous incoming handle, and the node kinds
are untouched. -/
theorem appendNode_spec (ns : List Node) (prev : Node) (pt : Point) :
    (appendNode (ns ++ [prev]) pt).length = ns.length + 2 ∧
    getNode (appendNode (ns ++ [prev]) pt) (ns.length + 1) =
      ⟨pt, ⟨pt.x - SMOOTHING_FACTOR * (pt.x - prev.anchor.x),
            pt.y - SMOOTHING_FACTOR * (pt.y - prev.anchor.y)⟩,
          ⟨pt.x + 50, pt.y⟩, NodeType.corner⟩ ∧
    getNode (appendNode (ns ++ [prev]) pt) ns.length =
      { prev with ctrl2 := ⟨prev.anchor.x + SMOOTHING_FACTOR * (pt.x - prev.anchor.x),
                            prev.anchor.y + SMOOTHING_FACTOR * (pt.y - prev.anchor.y)⟩ } ∧
    distSq (getNode (appendNode (ns ++ [prev]) pt) (ns.length + 1)).ctrl1 pt =
      SMOOTHING_FACTOR ^ 2 * distSq prev.anchor pt ∧
    distSq (getNode (appendNode (ns ++ [prev]) pt) ns.length).ctrl2 prev.anchor =
      SMOOTHING_FACTOR ^ 2 * distSq prev.anchor pt ∧
    (pt.x - (getNode (appendNode (ns ++ [prev]) pt) (ns.length + 1)).ctrl1.x) *
        (pt.y - prev.anchor.y) -
      (pt.y - (getNode (appendNode (ns ++ [prev]) pt) (ns.length + 1)).ctrl1.y) *
        (pt.x - prev.anchor.x) = 0 ∧
    ((getNode (appendNode (ns ++ [prev]) pt) ns.length).ctrl2.x - prev.anchor.x) *
        (pt.y - prev.anchor.y) -
      ((getNode (appendNode (ns ++ [prev]) pt) ns.length).ctrl2.y - prev.anchor.y) *
        (pt.x - prev.anchor.x) = 0 := by
  have hres : appendNode (ns ++ [prev]) pt =
      ns ++ [{ prev with
                ctrl2 := ⟨prev.anchor.x + SMOOTHING_FACTOR * (pt.x - prev.anchor.x),
                          prev.anchor.y + SMOOTHING_FACTOR * (pt.y - prev.anchor.y)⟩ },
             ⟨pt, ⟨pt.x - SMOOTHING_FACTOR * (pt.x - prev.anchor.x),
                   pt.y - SMOOTHING_FACTOR * (pt.y - prev.anchor.y)⟩,
                 ⟨pt.x + 50, pt.y⟩, NodeType.corner⟩] := by
    simp only [appendNode, List.getLast?_concat, List.dropLast_concat]
  have h1 : getNode (appendNode (ns ++ [prev]) pt) (ns.length + 1) =
      ⟨pt, ⟨pt.x - SMOOTHING_FACTOR * (pt.x - prev.anchor.x),
            pt.y - SMOOTHING_FACTOR * (pt.y - prev.anchor.y)⟩,
          ⟨pt.x + 50, pt.y⟩, NodeType.corner⟩ := by
    rw [hres, getNode, List.getD_append_right _ _ _ _ (by omega)]
    simp
  have h2 : getNode (appendNode (ns ++ [prev]) pt) ns.length =
      { prev with ctrl2 := ⟨prev.anchor.x + SMOOTHING_FACTOR * (pt.x - prev.anchor.x),
                            prev.anchor.y + SMOOTHING_FACTOR * (pt.y - prev.anchor.y)⟩ } := by
    rw [hres, getNode, List.getD_append_right _ _ _ _ (by omega)]
    simp
  refine ⟨by rw [hres]; simp, h1, h2, ?_, ?_, ?_, ?_⟩
  · rw [h1]; simp only [distSq, SMOOTHING_FACTOR]; ring
  · rw [h2]; simp only [distSq, SMOOTHING_FACTOR]; ring
  · rw [h1]; simp only [SMOOTHING_FACTOR]; ring
  · rw [h2]; simp only [SMOOTHING_FACTOR]; ring

/-- `getNode` agrees with in-range indexing. -/
theorem getNode_eq_getElem (l : List Node) (i : ℕ) (h : i < l.length) :
    getNode l i = l[i] := List.getD_eq_getElem l dfltNode h

/-- Reading the written position of `List.set`. -/
theorem getNode_set_self (l : List Node) (i : ℕ) (x : Node) (h : i < l.length) :
    getNode (l.set i x) i = x := by
  rw [getNode_eq_getElem _ _ (by simpa using h)]
  exact List.getElem_set_self (by simpa using h)

/-- Reading another position of `List.set`. -/
theorem getNode_set_ne (l : List Node) (i j : ℕ) (x : Node) (hne : i ≠ j) :
    getNode (l.set i x) j = getNode l j := by
  by_cases hj : j < l.length
  · rw [getNode_eq_getElem _ _ (by simpa using hj), getNode_eq_getElem _ _ hj]
    exact List.getElem_set_of_ne hne x _
  · rw [getNode, getNode,
      List.getD_eq_default _ _ (by simpa using not_lt.mp hj),
      List.getD_eq_default _ _ (not_lt.mp hj)]

/-- Reading a position before an insertion. -/
theorem getNode_insertIdx_of_lt (l : List Node) (x : Node) (n k : ℕ)
    (hn : k < n) (hk : k < l.length) :
    getNode (l.insertIdx n x) k = getNode l k := by
  rw [getNode_eq_getElem _ _
      (lt_of_lt_of_le hk (List.length_le_length_insertIdx l x n)),
    getNode_eq_getElem _ _ hk]
  exact List.getElem_insertIdx_of_lt l x n k hn hk

/-- Reading the inserted position. -/
theorem getNode_insertIdx_self (l : List Node) (x : Node) (n : ℕ)
    (hn : n ≤ l.length) :
    getNode (l.insertIdx n x) n = x := by
  rw [getNode_eq_getElem _ _ (by rw [List.length_insertIdx n l hn]; omega)]
  exact List.getElem_insertIdx_self l x n hn

/-- Reading a position after an insertion. -/
theorem getNode_insertIdx_add_succ (l : List Node) (x : Node) (n k : ℕ)
    (hk : n + k < l.length) :
    getNode (l.insertIdx n x) (n + k + 1) = getNode l (n + k) := by
  rw [getNode_eq_getElem _ _
      (by rw [List.length_insertIdx n l (by omega)]; omega),
    getNode_eq_getElem _ _ hk]
  exact List.getElem_insertIdx_add_succ l x n k hk

/-- Core algebra of the smooth-handle mirror: placing the opposite handle at
`anchor + d · (ax/h, ay/h)` with `h² = ax² + ay²`, `h ≠ 0`, `0 ≤ d` gives a
zero cross product with `(-ax, -ay)`, a nonpositive dot product, and squared
length `d²`. -/
theorem opposite_ray_core (ax ay h d : ℚ) (hh0 : 0 ≤ h) (hz : h ≠ 0)
    (hsq : h ^ 2 = ax ^ 2 + ay ^ 2) (hd0 : 0 ≤ d) :
    (-ax) * (d * (ay / h)) - (-ay) * (d * (ax / h)) = 0 ∧
    (-ax) * (d * (ax / h)) + (-ay) * (d * (ay / h)) ≤ 0 ∧
    (d * (ax / h)) ^ 2 + (d * (ay / h)) ^ 2 = d ^ 2 := by
  refine ⟨by ring, ?_, ?_⟩
  · have e1 : (-ax) * (d * (ax / h)) + (-ay) * (d * (ay / h)) =
        -(d * (ax ^ 2 + ay ^ 2)) / h := by ring
    rw [e1, ← hsq]
    have e2 : -(d * h ^ 2) / h = -(d * h) := by
      rw [div_eq_iff hz]; ring
    rw [e2]
    have := mul_nonneg hd0 hh0
    linarith
  · have e1 : (d * (ax / h)) ^ 2 + (d * (ay / h)) ^ 2 =
        d ^ 2 * (ax ^ 2 + ay ^ 2) / h ^ 2 := by ring
    rw [e1, ← hsq, mul_div_assoc, div_self (pow_ne_zero 2 hz), mul_one]

/-- C6: moving either handle of a `smooth` node keeps `ctrl1`, `anchor`,
`ctrl2` collinear (zero cross product) with the two handles on opposite
sides of the anchor (nonpositive dot product), and the handle that was not
directly moved keeps its pre-edit squared distance from the anchor.  The
square-root function `rt` standing for `Math.hypot` is constrained to be
correct exactly on the three sums of squares this call evaluates it at. -/
theorem moveHandle_smooth_spec (rt : ℚ → ℚ) (node : Node) (snapped : Point)
    (role : HandleRole)
    (hsm : node.type = NodeType.smooth)
    (hh0 : 0 ≤ rt ((node.anchor.x - snapped.x) ^ 2 + (node.anchor.y - snapped.y) ^ 2))
    (hh1 : rt ((node.anchor.x - snapped.x) ^ 2 + (node.anchor.y - snapped.y) ^ 2) ^ 2 =
      (node.anchor.x - snapped.x) ^ 2 + (node.anchor.y - snapped.y) ^ 2)
    (hd20 : 0 ≤ rt ((node.anchor.x - node.ctrl2.x) ^ 2 + (node.anchor.y - node.ctrl2.y) ^ 2))
    (hd21 : rt ((node.anchor.x - node.ctrl2.x) ^ 2 + (node.anchor.y - node.ctrl2.y) ^ 2) ^ 2 =
      (node.anchor.x - node.ctrl2.x) ^ 2 + (node.anchor.y - node.ctrl2.y) ^ 2)
    (hd10 : 0 ≤ rt ((node.anchor.x - node.ctrl1.x) ^ 2 + (node.anchor.y - node.ctrl1.y) ^ 2))
    (hd11 : rt ((node.anchor.x - node.ctrl1.x) ^ 2 + (node.anchor.y - node.ctrl1.y) ^ 2) ^ 2 =
      (node.anchor.x - node.ctrl1.x) ^ 2 + (node.anchor.y - node.ctrl1.y) ^ 2) :
    (moveHandle rt node snapped role).anchor = node.anchor ∧
    ((moveHandle rt node snapped role).ctrl1.x - node.anchor.x) *
        ((moveHandle rt node snapped role).ctrl2.y - node.anchor.y) -
      ((moveHandle rt node snapped role).ctrl1.y - node.anchor.y) *
        ((moveHandle rt node snapped role).ctrl2.x - node.anchor.x) = 0 ∧
    ((moveHandle rt node snapped role).ctrl1.x - node.anchor.x) *
        ((moveHandle rt node snapped role).ctrl2.x - node.anchor.x) +
      ((moveHandle rt node snapped role).ctrl1.y - node.anchor.y) *
        ((moveHandle rt node snapped role).ctrl2.y - node.anchor.y) ≤ 0 ∧
    (role = HandleRole.ctrl1 → (moveHandle rt node snapped role).ctrl1 = snapped ∧
      distSq (moveHandle rt node snapped role).ctrl2 node.anchor =
        distSq node.ctrl2 node.anchor) ∧
    (role = HandleRole.ctrl2 → (moveHandle rt node snapped role).ctrl2 = snapped ∧
      distSq (moveHandle rt node snapped role).ctrl1 node.anchor =
        distSq node.ctrl1 node.anchor) := by
  obtain ⟨⟨anx, any'⟩, ⟨c1x, c1y⟩, ⟨c2x, c2y⟩, ty⟩ := node
  obtain ⟨sx, sy⟩ := snapped
  simp only at hsm hh0 hh1 hd20 hd21 hd10 hd11
  subst hsm
  cases role
  · -- moving ctrl1
    by_cases hz : rt ((anx - sx) ^ 2 + (any' - sy) ^ 2) = 0
    · rw [hz] at hh1
      have hax : anx - sx = 0 := by nlinarith [sq_nonneg (anx - sx), sq_nonneg (any' - sy)]
      have hay : any' - sy = 0 := by nlinarith [sq_nonneg (anx - sx), sq_nonneg (any' - sy)]
      have hmv : moveHandle rt ⟨⟨anx, any'⟩, ⟨c1x, c1y⟩, ⟨c2x, c2y⟩, NodeType.smooth⟩
          ⟨sx, sy⟩ HandleRole.ctrl1 =
          ⟨⟨anx, any'⟩, ⟨sx, sy⟩,
           ⟨anx + rt ((anx - c2x) ^ 2 + (any' - c2y) ^ 2), any'⟩,
           NodeType.smooth⟩ := by
        simp [moveHandle, dirCos, dirSin, hz]
      rw [hmv]
      refine ⟨rfl, ?_, ?_, fun _ => ⟨rfl, ?_⟩, fun h => HandleRole.noConfusion h⟩
      · show (sx - anx) * (any' - any') - (sy - any') *
            (anx + rt ((anx - c2x) ^ 2 + (any' - c2y) ^ 2) - anx) = 0
        linear_combination rt ((anx - c2x) ^ 2 + (any' - c2y) ^ 2) * hay
      · show (sx - anx) * (anx + rt ((anx - c2x) ^ 2 + (any' - c2y) ^ 2) - anx) +
            (sy - any') * (any' - any') ≤ 0
        have he : (sx - anx) * (anx + rt ((anx - c2x) ^ 2 + (any' - c2y) ^ 2) - anx) +
            (sy - any') * (any' - any') = 0 := by
          linear_combination (-(rt ((anx - c2x) ^ 2 + (any' - c2y) ^ 2))) * hax
        exact le_of_eq he
      · show (anx + rt ((anx - c2x) ^ 2 + (any' - c2y) ^ 2) - anx) ^ 2 +
            (any' - any') ^ 2 = (c2x - anx) ^ 2 + (c2y - any') ^ 2
        linear_combination hd21
    · have hmv : moveHandle rt ⟨⟨anx, any'⟩, ⟨c1x, c1y⟩, ⟨c2x, c2y⟩, NodeType.smooth⟩
          ⟨sx, sy⟩ HandleRole.ctrl1 =
          ⟨⟨anx, any'⟩, ⟨sx, sy⟩,
           ⟨anx + rt ((anx - c2x) ^ 2 + (any' - c2y) ^ 2) *
              ((anx - sx) / rt ((anx - sx) ^ 2 + (any' - sy) ^ 2)),
            any' + rt ((anx - c2x) ^ 2 + (any' - c2y) ^ 2) *
              ((any' - sy) / rt ((anx - sx) ^ 2 + (any' - sy) ^ 2))⟩,
           NodeType.smooth⟩ := by
        simp [moveHandle, dirCos, dirSin, hz]
      rw [hmv]
      have core := opposite_ray_core (anx - sx) (any' - sy)
        (rt ((anx - sx) ^ 2 + (any' - sy) ^ 2))
        (rt ((anx - c2x) ^ 2 + (any' - c2y) ^ 2)) hh0 hz hh1 hd20
      refine ⟨rfl, ?_, ?_, fun _ => ⟨rfl, ?_⟩, fun h => HandleRole.noConfusion h⟩
      · linear_combination core.1
      · have he : (sx - anx) *
            (anx + rt ((anx - c2x) ^ 2 + (any' - c2y) ^ 2) *
              ((anx - sx) / rt ((anx - sx) ^ 2 + (any' - sy) ^ 2)) - anx) +
            (sy - any') *
            (any' + rt ((anx - c2x) ^ 2 + (any' - c2y) ^ 2) *
              ((any' - sy) / rt ((anx - sx) ^ 2 + (any' - sy) ^ 2)) - any') =
            (-(anx - sx)) * (rt ((anx - c2x) ^ 2 + (any' - c2y) ^ 2) *
              ((anx - sx) / rt ((anx - sx) ^ 2 + (any' - sy) ^ 2))) +
            (-(any' - sy)) * (rt ((anx - c2x) ^ 2 + (any' - c2y) ^ 2) *
              ((any' - sy) / rt ((anx - sx) ^ 2 + (any' - sy) ^ 2))) := by ring
        rw [he]
        exact core.2.1
      · have he : (anx + rt ((anx - c2x) ^ 2 + (any' - c2y) ^ 2) *
              ((anx - sx) / rt ((anx - sx) ^ 2 + (any' - sy) ^ 2)) - anx) ^ 2 +
            (any' + rt ((anx - c2x) ^ 2 + (any' - c2y) ^ 2) *
              ((any' - sy) / rt ((anx - sx) ^ 2 + (any' - sy) ^ 2)) - any') ^ 2 =
            (rt ((anx - c2x) ^ 2 + (any' - c2y) ^ 2) *
              ((anx - sx) / rt ((anx - sx) ^ 2 + (any' - sy) ^ 2))) ^ 2 +
            (rt ((anx - c2x) ^ 2 + (any' - c2y) ^ 2) *
              ((any' - sy) / rt ((anx - sx) ^ 2 + (any' - sy) ^ 2))) ^ 2 := by ring
        show (anx + rt ((anx - c2x) ^ 2 + (any' - c2y) ^ 2) *
              ((anx - sx) / rt ((anx - sx) ^ 2 + (any' - sy) ^ 2)) - anx) ^ 2 +
            (any' + rt ((anx - c2x) ^ 2 + (any' - c2y) ^ 2) *
              ((any' - sy) / rt ((anx - sx) ^ 2 + (any' - sy) ^ 2)) - any') ^ 2 =
            (c2x - anx) ^ 2 + (c2y - any') ^ 2
        rw [he, core.2.2]
        linear_combination hd21
  · -- moving ctrl2
    by_cases hz : rt ((anx - sx) ^ 2 + (any' - sy) ^ 2) = 0
    · rw [hz] at hh1
      have hax : anx - sx = 0 := by nlinarith [sq_nonneg (anx - sx), sq_nonneg (any' - sy)]
      have hay : any' - sy = 0 := by nlinarith [sq_nonneg (anx - sx), sq_nonneg (any' - sy)]
      have hmv : moveHandle rt ⟨⟨anx, any'⟩, ⟨c1x, c1y⟩, ⟨c2x, c2y⟩, NodeType.smooth⟩
          ⟨sx, sy⟩ HandleRole.ctrl2 =
          ⟨⟨anx, any'⟩,
           ⟨anx + rt ((anx - c1x) ^ 2 + (any' - c1y) ^ 2), any'⟩,
           ⟨sx, sy⟩, NodeType.smooth⟩ := by
        simp [moveHandle, dirCos, dirSin, hz]
      rw [hmv]
      refine ⟨rfl, ?_, ?_, fun h => HandleRole.noConfusion h, fun _ => ⟨rfl, ?_⟩⟩
      · show (anx + rt ((anx - c1x) ^ 2 + (any' - c1y) ^ 2) - anx) * (sy - any') -
            (any' - any') * (sx - anx) = 0
        linear_combination (-(rt ((anx - c1x) ^ 2 + (any' - c1y) ^ 2))) * hay
      · show (anx + rt ((anx - c1x) ^ 2 + (any' - c1y) ^ 2) - anx) * (sx - anx) +
            (any' - any') * (sy - any') ≤ 0
        have he : (anx + rt ((anx - c1x) ^ 2 + (any' - c1y) ^ 2) - anx) * (sx - anx) +
            (any' - any') * (sy - any') = 0 := by
          linear_combination (-(rt ((anx - c1x) ^ 2 + (any' - c1y) ^ 2))) * hax
        exact le_of_eq he
      · show (anx + rt ((anx - c1x) ^ 2 + (any' - c1y) ^ 2) - anx) ^ 2 +
            (any' - any') ^ 2 = (c1x - anx) ^ 2 + (c1y - any') ^ 2
        linear_combination hd11
    · have hmv : moveHandle rt ⟨⟨anx, any'⟩, ⟨c1x, c1y⟩, ⟨c2x, c2y⟩, NodeType.smooth⟩
          ⟨sx, sy⟩ HandleRole.ctrl2 =
          ⟨⟨anx, any'⟩,
           ⟨anx + rt ((anx - c1x) ^ 2 + (any' - c1y) ^ 2) *
              ((anx - sx) / rt ((anx - sx) ^ 2 + (any' - sy) ^ 2)),
            any' + rt ((anx - c1x) ^ 2 + (any' - c1y) ^ 2) *
              ((any' - sy) / rt ((anx - sx) ^ 2 + (any' - sy) ^ 2))⟩,
           ⟨sx, sy⟩, NodeType.smooth⟩ := by
        simp [moveHandle, dirCos, dirSin, hz]
      rw [hmv]
      have core := opposite_ray_core (anx - sx) (any' - sy)
        (rt ((anx - sx) ^ 2 + (any' - sy) ^ 2))
        (rt ((anx - c1x) ^ 2 + (any' - c1y) ^ 2)) hh0 hz hh1 hd10
      refine ⟨rfl, ?_, ?_, fun h => HandleRole.noConfusion h, fun _ => ⟨rfl, ?_⟩⟩
      · linear_combination (-1 : ℚ) * core.1
      · have he : (anx + rt ((anx - c1x) ^ 2 + (any' - c1y) ^ 2) *
              ((anx - sx) / rt ((anx - sx) ^ 2 + (any' - sy) ^ 2)) - anx) *
            (sx - anx) +
            (any' + rt ((anx - c1x) ^ 2 + (any' - c1y) ^ 2) *
              ((any' - sy) / rt ((anx - sx) ^ 2 + (any' - sy) ^ 2)) - any') *
            (sy - any') =
            (-(anx - sx)) * (rt ((anx - c1x) ^ 2 + (any' - c1y) ^ 2) *
              ((anx - sx) / rt ((anx - sx) ^ 2 + (any' - sy) ^ 2))) +
            (-(any' - sy)) * (rt ((anx - c1x) ^ 2 + (any' - c1y) ^ 2) *
              ((any' - sy) / rt ((anx - sx) ^ 2 + (any' - sy) ^ 2))) := by ring
        rw [he]
        exact core.2.1
      · have he : (anx + rt ((anx - c1x) ^ 2 + (any' - c1y) ^ 2) *
              ((anx - sx) / rt ((anx - sx) ^ 2 + (any' - sy) ^ 2)) - anx) ^ 2 +
            (any' + rt ((anx - c1x) ^ 2 + (any' - c1y) ^ 2) *
              ((any' - sy) / rt ((anx - sx) ^ 2 + (any' - sy) ^ 2)) - any') ^ 2 =
            (rt ((anx - c1x) ^ 2 + (any' - c1y) ^ 2) *
              ((anx - sx) / rt ((anx - sx) ^ 2 + (any' - sy) ^ 2))) ^ 2 +
            (rt ((anx - c1x) ^ 2 + (any' - c1y) ^ 2) *
              ((any' - sy) / rt ((anx - sx) ^ 2 + (any' - sy) ^ 2))) ^ 2 := by ring
        show (anx + rt ((anx - c1x) ^ 2 + (any' - c1y) ^ 2) *
              ((anx - sx) / rt ((anx - sx) ^ 2 + (any' - sy) ^ 2)) - anx) ^ 2 +
            (any' + rt ((anx - c1x) ^ 2 + (any' - c1y) ^ 2) *
              ((any' - sy) / rt ((anx - sx) ^ 2 + (any' - sy) ^ 2)) - any') ^ 2 =
            (c1x - anx) ^ 2 + (c1y - any') ^ 2
        rw [he, core.2.2]
        linear_combination hd11

/-- Witness for `moveHandle_smooth_spec`: moving `ctrl1` of the concrete
smooth node `c6node` to `(-3, -4)` (all hypot values rational via `c6rt`)
keeps the opposite handle's squared distance at 100. -/
theorem moveHandle_smooth_spec_witness :
    c6node.type = NodeType.smooth ∧
    (moveHandle c6rt c6node ⟨-3, -4⟩ HandleRole.ctrl1).ctrl1 = ⟨-3, -4⟩ ∧
    distSq (moveHandle c6rt c6node ⟨-3, -4⟩ HandleRole.ctrl1).ctrl2 c6node.anchor =
      distSq c6node.ctrl2 c6node.anchor :=
  ⟨rfl,
   (moveHandle_smooth_spec c6rt c6node ⟨-3, -4⟩ HandleRole.ctrl1 rfl
      (by norm_num [c6rt, c6node]) (by norm_num [c6rt, c6node])
      (by norm_num [c6rt, c6node]) (by norm_num [c6rt, c6node])
      (by norm_num [c6rt, c6node]) (by norm_num [c6rt, c6node])).2.2.2.1 rfl⟩

/-- C4: inserting a node on segment `index` at parameter `t` (de Casteljau
subdivision, replacement of the segment's outer handles, splice of the new
`smooth` node) does not alter the visible curve: the original segment
evaluated at global parameter `t·u` (resp. `t + (1-t)·u`) equals the first
(resp. second) of the two new segments evaluated at `u` — exactly, over ℚ.
The new list has one more node. -/
theorem insertOnSegment_preserves_curve (nodes : List Node) (index : ℕ)
    (t u : ℚ) (hi : index < nodes.length) (hn : 2 ≤ nodes.length) :
    (insertOnSegment nodes index t).length = nodes.length + 1 ∧
    getPointOnCubicBezier (t * u) (getNode nodes index).anchor
        (getNode nodes index).ctrl2
        (getNode nodes ((index + 1) % nodes.length)).ctrl1
        (getNode nodes ((index + 1) % nodes.length)).anchor =
      getPointOnCubicBezier u
        (getNode (insertOnSegment nodes index t) index).anchor
        (getNode (insertOnSegment nodes index t) index).ctrl2
        (getNode (insertOnSegment nodes index t) (index + 1)).ctrl1
        (getNode (insertOnSegment nodes index t) (index + 1)).anchor ∧
    getPointOnCubicBezier (t + (1 - t) * u) (getNode nodes index).anchor
        (getNode nodes index).ctrl2
        (getNode nodes ((index + 1) % nodes.length)).ctrl1
        (getNode nodes ((index + 1) % nodes.length)).anchor =
      getPointOnCubicBezier u
        (getNode (insertOnSegment nodes index t) (index + 1)).anchor
        (getNode (insertOnSegment nodes index t) (index + 1)).ctrl2
        (getNode (insertOnSegment nodes index t)
          ((index + 2) % (nodes.length + 1))).ctrl1
        (getNode (insertOnSegment nodes index t)
          ((index + 2) % (nodes.length + 1))).anchor := by
  have hb : (index + 1) % nodes.length < nodes.length := Nat.mod_lt _ (by omega)
  have hbne : (index + 1) % nodes.length ≠ index := by
    rcases Nat.lt_or_ge (index + 1) nodes.length with h1 | h1
    · rw [Nat.mod_eq_of_lt h1]; omega
    · have h2 : index + 1 = nodes.length := by omega
      rw [h2, Nat.mod_self]; omega
  simp only [insertOnSegment]
  refine ⟨?_, ?_, ?_⟩
  · rw [List.length_insertIdx _ _ (by simp only [List.length_set]; omega)]
    simp only [List.length_set]
  · rw [getNode_insertIdx_of_lt _ _ _ _ (by omega)
      (by simp only [List.length_set]; omega)]
    rw [getNode_insertIdx_self _ _ _ (by simp only [List.length_set]; omega)]
    rw [getNode_set_ne _ _ _ _ hbne, getNode_set_self _ _ _ hi]
    simp only [getPointOnCubicBezier, lerpP, Point.mk.injEq]
    constructor
    · ring
    · ring
  · rw [getNode_insertIdx_self _ _ _ (by simp only [List.length_set]; omega)]
    rcases Nat.lt_or_ge (index + 1) nodes.length with h1 | h1
    · have hmod : (index + 2) % (nodes.length + 1) = index + 1 + 0 + 1 :=
        Nat.mod_eq_of_lt (by omega)
      rw [hmod]
      rw [getNode_insertIdx_add_succ _ _ (index + 1) 0
        (by simp only [List.length_set]; omega)]
      have hb1 : (index + 1) % nodes.length = index + 1 := Nat.mod_eq_of_lt h1
      rw [hb1]
      rw [show index + 1 + 0 = index + 1 from rfl]
      rw [getNode_set_self _ _ _ (by simp only [List.length_set]; omega)]
      have hne2 : index ≠ index + 1 := by omega
      rw [getNode_set_ne _ _ _ _ hne2]
      simp only [getPointOnCubicBezier, lerpP, Point.mk.injEq]
      constructor
      · ring
      · ring
    · have h2 : index + 1 = nodes.length := by omega
      have hmod : (index + 2) % (nodes.length + 1) = 0 := by
        have : index + 2 = nodes.length + 1 := by omega
        rw [this, Nat.mod_self]
      rw [hmod]
      rw [getNode_insertIdx_of_lt _ _ _ 0 (by omega)
        (by simp only [List.length_set]; omega)]
      have hb0 : (index + 1) % nodes.length = 0 := by rw [h2, Nat.mod_self]
      rw [hb0]
      rw [getNode_set_self _ _ _ (by simp only [List.length_set]; omega)]
      have hne2 : index ≠ 0 := by omega
      rw [getNode_set_ne _ _ _ _ hne2]
      simp only [getPointOnCubicBezier, lerpP, Point.mk.injEq]
      constructor
      · ring
      · ring

/-- Witness for `insertOnSegment_preserves_curve`: a concrete two-node path,
segment 0, `t = 1/2` — the node count grows by one. -/
theorem insertOnSegment_preserves_curve_witness :
    (insertOnSegment [firstNode, firstNode] 0 (1/2)).length = 3 := by
  have h := (insertOnSegment_preserves_curve [firstNode, firstNode] 0
    (1/2) (1/3) (by norm_num) (by norm_num)).1
  simpa using h

/-- A fold whose step function never yields `none` produces `some` whenever
it consumes at least one element or starts from `some`. -/
theorem foldl_isSome {α β : Type} (f : Option α → β → Option α)
    (hf : ∀ acc b, (f acc b).isSome) :
    ∀ (l : List β) (acc : Option α), l ≠ [] ∨ acc.isSome →
      (l.foldl f acc).isSome := by
  intro l
  induction l with
  | nil =>
    intro acc h
    rcases h with h | h
    · exact absurd rfl h
    · simpa using h
  | cons x xs ih =>
    intro acc _
    rw [List.foldl_cons]
    exact ih (f acc x) (Or.inr (hf acc x))

/-- The sample-scan step (lines 90–98) never yields `none`. -/
theorem closestSampleStep_isSome (point p0 p1 p2 p3 : Point)
    (acc : Option (ℚ × ℚ)) (i : ℕ) :
    (closestSampleStep point p0 p1 p2 p3 acc i).isSome := by
  rcases acc with _ | best
  · simp [closestSampleStep]
  · simp only [closestSampleStep]
    split
    · simp
    · simp

/-- The edge-scan step (lines 223–233) never yields `none`. -/
theorem closestEdgeStep_isSome (nodes : List Node) (point : Point)
    (acc : Option (ℚ × ℕ)) (i : ℕ) :
    (closestEdgeStep nodes point acc i).isSome := by
  rcases acc with _ | best
  · simp [closestEdgeStep]
  · simp only [closestEdgeStep]
    split
    · simp
    · simp

/-- Every `some` accumulator of the sample scan is one of the samples
`t = i/30`, `i ≤ 30`, paired with its squared distance. -/
theorem closestSampleScan_mem (point p0 p1 p2 p3 : Point) :
    ∀ (l : List ℕ) (acc : Option (ℚ × ℚ)),
      (∀ r, acc = some r → ∃ i : ℕ, i ≤ 30 ∧
        r = (distSq (getPointOnCubicBezier ((i : ℚ) / 30) p0 p1 p2 p3) point,
             (i : ℚ) / 30)) →
      (∀ i ∈ l, i ≤ 30) →
      ∀ r, l.foldl (closestSampleStep point p0 p1 p2 p3) acc = some r →
        ∃ i : ℕ, i ≤ 30 ∧
          r = (distSq (getPointOnCubicBezier ((i : ℚ) / 30) p0 p1 p2 p3) point,
               (i : ℚ) / 30) := by
  intro l
  induction l with
  | nil =>
    intro acc hacc _ r hr
    exact hacc r (by simpa using hr)
  | cons x xs ih =>
    intro acc hacc hmem r hr
    rw [List.foldl_cons] at hr
    refine ih _ ?_ (fun j hj => hmem j (List.mem_cons_of_mem _ hj)) r hr
    intro r' hr'
    rcases acc with _ | best
    · simp only [closestSampleStep] at hr'
      cases hr'
      exact ⟨x, hmem x (List.mem_cons_self _ _), rfl⟩
    · simp only [closestSampleStep] at hr'
      split at hr'
      · cases hr'
        exact ⟨x, hmem x (List.mem_cons_self _ _), rfl⟩
      · exact hacc r' hr'

/-- Every `some` accumulator of the edge scan carries an index drawn from
the scanned list. -/
theorem closestEdgeScan_mem (nodes : List Node) (point : Point) :
    ∀ (l : List ℕ) (acc : Option (ℚ × ℕ)),
      (∀ r, acc = some r → r.2 < nodes.length) →
      (∀ i ∈ l, i < nodes.length) →
      ∀ r, l.foldl (closestEdgeStep nodes point) acc = some r →
        r.2 < nodes.length := by
  intro l
  induction l with
  | nil =>
    intro acc hacc _ r hr
    exact hacc r (by simpa using hr)
  | cons x xs ih =>
    intro acc hacc hmem r hr
    rw [List.foldl_cons] at hr
    refine ih _ ?_ (fun j hj => hmem j (List.mem_cons_of_mem _ hj)) r hr
    intro r' hr'
    rcases acc with _ | best
    · simp only [closestEdgeStep] at hr'
      cases hr'
      exact hmem x (List.mem_cons_self _ _)
    · simp only [closestEdgeStep] at hr'
      split at hr'
      · cases hr'
        exact hmem x (List.mem_cons_self _ _)
      · exact hacc r' hr'

/-- The chosen edge index is in range. -/
theorem closestEdge_lt (nodes : List Node) (point : Point) (i : ℕ)
    (h : closestEdge nodes point = some i) : i < nodes.length := by
  rw [closestEdge] at h
  rcases Option.map_eq_some'.mp h with ⟨r, hr, hri⟩
  have := closestEdgeScan_mem nodes point (List.range nodes.length) none
    (fun r h => by cases h) (fun j hj => List.mem_range.mp hj) r hr
  omega

/-- C10: the nearest-point sampler always returns one of its 31 samples — a
nonnegative (finite, in exact arithmetic) squared distance and a parameter
`t = i/30 ∈ [0, 1]` — and, for any nonempty node list (in particular a
closed path with ≥ 3 nodes), the per-segment scan selects some edge, so the
`closestEdgeIndex === -1` abort branch of `handleSymmetryEdgePick` is
unreachable. -/
theorem scan_always_finds_edge (point p0 p1 p2 p3 : Point)
    (nodes : List Node) (hn : 1 ≤ nodes.length) :
    (∃ i : ℕ, i ≤ 30 ∧
      findClosestPointOnCubicBezier point p0 p1 p2 p3 =
        (distSq (getPointOnCubicBezier ((i : ℚ) / 30) p0 p1 p2 p3) point,
         (i : ℚ) / 30)) ∧
    0 ≤ (findClosestPointOnCubicBezier point p0 p1 p2 p3).1 ∧
    0 ≤ (findClosestPointOnCubicBezier point p0 p1 p2 p3).2 ∧
    (findClosestPointOnCubicBezier point p0 p1 p2 p3).2 ≤ 1 ∧
    (closestEdge nodes point).isSome := by
  have h1 : ((List.range 31).foldl (closestSampleStep point p0 p1 p2 p3)
      none).isSome :=
    foldl_isSome _ (closestSampleStep_isSome point p0 p1 p2 p3) _ none
      (Or.inl (by simp))
  rcases Option.isSome_iff_exists.mp h1 with ⟨r, hr⟩
  have hmem := closestSampleScan_mem point p0 p1 p2 p3 (List.range 31) none
    (fun r h => by cases h) (fun j hj => by have := List.mem_range.mp hj; omega)
    r hr
  have hval : findClosestPointOnCubicBezier point p0 p1 p2 p3 = r := by
    have hdef : findClosestPointOnCubicBezier point p0 p1 p2 p3 =
        match (List.range 31).foldl (closestSampleStep point p0 p1 p2 p3) none with
        | some best => best
        | none => (0, 0) := rfl
    rw [hdef, hr]
  rcases hmem with ⟨i, hi30, hri⟩
  have hit : (0 : ℚ) ≤ (i : ℚ) / 30 :=
    div_nonneg (by positivity) (by norm_num)
  have hit1 : ((i : ℚ) / 30) ≤ 1 := by
    rw [div_le_one (by norm_num : (0:ℚ) < 30)]
    exact_mod_cast hi30
  refine ⟨⟨i, hi30, by rw [hval, hri]⟩, ?_, ?_, ?_, ?_⟩
  · rw [hval, hri]
    exact add_nonneg (sq_nonneg _) (sq_nonneg _)
  · rw [hval, hri]
    exact hit
  · rw [hval, hri]
    exact hit1
  · have h2 := foldl_isSome _ (closestEdgeStep_isSome nodes point)
      (List.range nodes.length) none
      (Or.inl (by
        intro hemp
        rw [List.range_eq_nil] at hemp
        omega))
    rcases Option.isSome_iff_exists.mp h2 with ⟨r2, hr2⟩
    rw [closestEdge, hr2]
    rfl

/-- Witness for `scan_always_finds_edge`: the concrete closed 3-node state
`zState` has a nonempty node list, so the scan returns an edge. -/
theorem scan_always_finds_edge_witness :
    1 ≤ zState.nodes.length ∧ (closestEdge zState.nodes ⟨0, 0⟩).isSome :=
  ⟨by norm_num [zState],
   (scan_always_finds_edge ⟨0, 0⟩ ⟨0, 0⟩ ⟨0, 0⟩ ⟨0, 0⟩ ⟨0, 0⟩ zState.nodes
     (by norm_num [zState])).2.2.2.2⟩

/-- C2: when the path is open, or has fewer than 3 nodes, or the selected
closest edge fails the straightness test, `handleSymmetryEdgePick` leaves
`nodes`, `isPathClosed`, the history and its index unchanged, resets the
symmetry-pick mode to inactive, and reports `notStraightEdge` exactly in the
failed-straightness case (the no-eligible-path cases are silent). -/
theorem symmetry_failure_paths (st : EditorState) (point : Point)
    (hfail : st.isPathClosed = false ∨ st.nodes.length < 3 ∨
      (∃ i, closestEdge st.nodes point = some i ∧
        isStraightEdge (getNode st.nodes i).anchor
          (getNode st.nodes ((i + 1) % st.nodes.length)).anchor
          (getNode st.nodes i).ctrl2
          (getNode st.nodes ((i + 1) % st.nodes.length)).ctrl1 = false)) :
    (handleSymmetryEdgePick st point).1.nodes = st.nodes ∧
    (handleSymmetryEdgePick st point).1.isPathClosed = st.isPathClosed ∧
    (handleSymmetryEdgePick st point).1.history = st.history ∧
    (handleSymmetryEdgePick st point).1.historyIndex = st.historyIndex ∧
    (handleSymmetryEdgePick st point).1.symmetryState = SymmetryState.inactive ∧
    ((handleSymmetryEdgePick st point).2 = some SymmetryReport.notStraightEdge ↔
      (st.isPathClosed = true ∧ 3 ≤ st.nodes.length ∧
        ∃ i, closestEdge st.nodes point = some i ∧
          isStraightEdge (getNode st.nodes i).anchor
            (getNode st.nodes ((i + 1) % st.nodes.length)).anchor
            (getNode st.nodes i).ctrl2
            (getNode st.nodes ((i + 1) % st.nodes.length)).ctrl1 = false)) := by
  by_cases hcond : st.isPathClosed = false ∨ st.nodes.length < 3
  · rw [handleSymmetryEdgePick, if_pos hcond]
    refine ⟨rfl, rfl, rfl, rfl, rfl, ?_⟩
    constructor
    · intro h
      cases h
    · rintro ⟨hc, hlen, -⟩
      rcases hcond with h | h
      · rw [hc] at h
        cases h
      · omega
  · have hclosed : st.isPathClosed = true := by
      rcases hb : st.isPathClosed with _ | _
      · exact absurd (Or.inl hb) hcond
      · rfl
    have hlen : 3 ≤ st.nodes.length := by
      by_contra hlt
      exact hcond (Or.inr (by omega))
    rcases hfail with h | h | h
    · rw [hclosed] at h
      cases h
    · omega
    · rcases h with ⟨i, hscan, hstraight⟩
      rw [handleSymmetryEdgePick, if_neg hcond, hscan]
      simp only [hstraight]
      rw [if_pos trivial]
      refine ⟨rfl, rfl, rfl, rfl, rfl, ?_⟩
      constructor
      · intro _
        exact ⟨hclosed, hlen, i, rfl, hstraight⟩
      · intro _
        rfl

/-- Witness for `symmetry_failure_paths`: picking an edge on an open path is
a silent no-op that resets the symmetry mode. -/
theorem symmetry_failure_paths_witness :
    (handleSymmetryEdgePick
      ⟨[], false, [⟨[], false⟩], 0, SymmetryState.pickingEdge⟩ ⟨0, 0⟩).1.nodes
      = [] ∧
    (handleSymmetryEdgePick
      ⟨[], false, [⟨[], false⟩], 0,
        SymmetryState.pickingEdge⟩ ⟨0, 0⟩).1.symmetryState =
      SymmetryState.inactive :=
  ⟨(symmetry_failure_paths
      ⟨[], false, [⟨[], false⟩], 0, SymmetryState.pickingEdge⟩ ⟨0, 0⟩
      (Or.inl rfl)).1,
   (symmetry_failure_paths
      ⟨[], false, [⟨[], false⟩], 0, SymmetryState.pickingEdge⟩ ⟨0, 0⟩
      (Or.inl rfl)).2.2.2.2.1⟩

/-- C3 (code bug at the failing input): inserting a node on segment 0 of the
concrete two-node path mutates, in place, node objects that the pre-existing
history snapshot (`c3heap.history[1] = ([0, 1], false)`) still references:
dereferencing that snapshot after the insertion no longer yields the nodes
it held before (node 0's outgoing handle moved from `(50,0)` to `(25,0)`).
The snapshot taken before the operation is therefore corrupted, contrary to
the claim that no operation mutates a node object shared with history. -/
theorem insertOnSegment_mutates_history_snapshot :
    (c3heap.history.getD 1 ([], false)).1 = [0, 1] ∧
    derefNodes (insertOnSegmentHeap c3heap 0 (1/2) false).store
        (c3heap.history.getD 1 ([], false)).1 ≠
      derefNodes c3heap.store (c3heap.history.getD 1 ([], false)).1 := by
  constructor
  · rfl
  · norm_num [insertOnSegmentHeap, derefNodes, readNode, c3heap, firstNode,
      c3node1, lerpP, getNode, dfltNode, List.insertIdx_succ_cons,
      List.insertIdx_zero, Node.mk.injEq, Point.mk.injEq]

/-- `getD` of a `take`-prefix agrees with the original list inside the
prefix. -/
theorem getD_take (l : List HistoryState) (n i : ℕ) (d : HistoryState)
    (h : i < n) (h2 : i < l.length) :
    (l.take n).getD i d = l.getD i d := by
  rw [List.getD_eq_getElem _ _ (by simp [List.length_take]; omega),
    List.getD_eq_getElem _ _ h2]
  exact List.getElem_take l

/-- A commit preserves the history invariant and advances the index. -/
theorem updateStateAndHistory_inv (st : EditorState) (ns : List Node)
    (c : Bool) (hinv : HistInv st) :
    HistInv (updateStateAndHistory st ns c) ∧
    (updateStateAndHistory st ns c).historyIndex = st.historyIndex + 1 := by
  obtain ⟨hlen, _, h0⟩ := hinv
  have htl : (st.history.take (st.historyIndex + 1)).length =
      st.historyIndex + 1 := by
    rw [List.length_take]
    omega
  have hidx : (updateStateAndHistory st ns c).historyIndex =
      st.historyIndex + 1 := by
    simp only [updateStateAndHistory, List.length_append, htl]
    simp
  refine ⟨⟨?_, ?_, ?_⟩, hidx⟩
  · rw [hidx]
    simp only [updateStateAndHistory, List.length_append, htl]
    simp
  · rw [hidx]
    simp only [updateStateAndHistory]
    rw [List.getD_append_right _ _ _ _ (by omega)]
    rw [htl]
    simp
  · simp only [updateStateAndHistory]
    rw [List.getD_append _ _ _ _ (by omega), getD_take _ _ _ _ (by omega) (by omega)]
    exact h0

/-- Append commits preserve the invariant; each adds one history entry. -/
theorem applyAppends_inv (ps : List Point) :
    ∀ st : EditorState, HistInv st →
      HistInv (applyAppends st ps) ∧
      (applyAppends st ps).historyIndex = st.historyIndex + ps.length := by
  induction ps with
  | nil =>
    intro st hinv
    exact ⟨hinv, by simp [applyAppends]⟩
  | cons p ps ih =>
    intro st hinv
    have h1 := updateStateAndHistory_inv st (appendNode st.nodes p)
      st.isPathClosed hinv
    have h2 := ih (applyAppend st p) h1.1
    refine ⟨h2.1, ?_⟩
    have : applyAppends st (p :: ps) = applyAppends (applyAppend st p) ps := rfl
    rw [this, h2.2]
    have : (applyAppend st p).historyIndex = st.historyIndex + 1 := h1.2
    rw [this]
    simp only [List.length_cons]
    omega

/-- `k` undos from index `k` land on index 0 and load history entry 0;
the history itself is untouched. -/
theorem undo_iterate (k : ℕ) (hk : 1 ≤ k) :
    ∀ st : EditorState, st.historyIndex = k →
      undo^[k] st =
        { st with
          historyIndex := 0
          nodes := (st.history.getD 0 ⟨[], false⟩).nodes
          isPathClosed := (st.history.getD 0 ⟨[], false⟩).isPathClosed } := by
  induction k, hk using Nat.le_induction with
  | base =>
    intro st hidx
    rw [Function.iterate_one, undo, if_pos (by omega)]
    rw [hidx]
  | succ n hn ih =>
    intro st hidx
    rw [Function.iterate_succ_apply]
    have hu : undo st =
        { st with
          historyIndex := n
          nodes := (st.history.getD n ⟨[], false⟩).nodes
          isPathClosed := (st.history.getD n ⟨[], false⟩).isPathClosed } := by
      rw [undo, if_pos (by omega)]
      rw [hidx]
      simp
    rw [hu, ih _ rfl]

/-- `k` redos from index `i` (with `i + k` still in range) land on index
`i + k` and load that entry. -/
theorem redo_iterate (k : ℕ) (hk : 1 ≤ k) :
    ∀ st : EditorState, st.historyIndex + k < st.history.length →
      redo^[k] st =
        { st with
          historyIndex := st.historyIndex + k
          nodes := (st.history.getD (st.historyIndex + k) ⟨[], false⟩).nodes
          isPathClosed :=
            (st.history.getD (st.historyIndex + k) ⟨[], false⟩).isPathClosed } := by
  induction k, hk using Nat.le_induction with
  | base =>
    intro st hlt
    rw [Function.iterate_one, redo, if_pos (by omega)]
  | succ n hn ih =>
    intro st hlt
    rw [Function.iterate_succ_apply]
    have hr : redo st =
        { st with
          historyIndex := st.historyIndex + 1
          nodes := (st.history.getD (st.historyIndex + 1) ⟨[], false⟩).nodes
          isPathClosed :=
            (st.history.getD (st.historyIndex + 1) ⟨[], false⟩).isPathClosed } := by
      rw [redo, if_pos (by omega)]
    rw [hr, ih _ (by simpa using by omega)]
    have harith : st.historyIndex + 1 + n = st.historyIndex + (n + 1) := by omega
    simp [harith]

/-- C7: a commit truncates the history after the current index, appends the
new `(nodes, closed)` snapshot, and advances the index to the new last
entry; `undo` at index 0 and `redo` at the last index are no-ops leaving the
whole state unchanged; and, starting from the initial empty state, `N`
sequential append commits followed by `N` undos return to the empty path,
while `N` subsequent redos restore the final state. -/
theorem history_undo_redo_spec (st : EditorState) (ns : List Node) (c : Bool)
    (ps : List Point) (hidx : st.historyIndex < st.history.length) :
    ((updateStateAndHistory st ns c).history =
        st.history.take (st.historyIndex + 1) ++ [⟨ns, c⟩] ∧
      (updateStateAndHistory st ns c).historyIndex = st.historyIndex + 1 ∧
      (updateStateAndHistory st ns c).historyIndex =
        (updateStateAndHistory st ns c).history.length - 1 ∧
      (updateStateAndHistory st ns c).nodes = ns ∧
      (updateStateAndHistory st ns c).isPathClosed = c) ∧
    (st.historyIndex = 0 → undo st = st) ∧
    (st.historyIndex = st.history.length - 1 → redo st = st) ∧
    ((undo^[ps.length] (applyAppends initialState ps)).nodes = [] ∧
     (undo^[ps.length] (applyAppends initialState ps)).isPathClosed = false ∧
     (redo^[ps.length] (undo^[ps.length] (applyAppends initialState ps))).nodes =
       (applyAppends initialState ps).nodes ∧
     (redo^[ps.length]
        (undo^[ps.length] (applyAppends initialState ps))).isPathClosed =
       (applyAppends initialState ps).isPathClosed) := by
  have htl : (st.history.take (st.historyIndex + 1)).length =
      st.historyIndex + 1 := by
    rw [List.length_take]
    omega
  refine ⟨⟨rfl, ?_, ?_, rfl, rfl⟩, ?_, ?_, ?_⟩
  · simp [updateStateAndHistory, htl]
  · simp [updateStateAndHistory, htl]
  · intro h0
    rw [undo, if_neg (by omega)]
  · intro hlast
    rw [redo, if_neg (by omega)]
  · have hinv0 : HistInv initialState := by
      refine ⟨rfl, rfl, rfl⟩
    obtain ⟨hinvN, hidxN⟩ := applyAppends_inv ps initialState hinv0
    have hidxN' : (applyAppends initialState ps).historyIndex = ps.length := by
      rw [hidxN]
      simp [initialState]
    rcases Nat.eq_zero_or_pos ps.length with h0 | hpos
    · have hps : ps = [] := List.length_eq_zero.mp h0
      subst hps
      simp [applyAppends, initialState]
    · obtain ⟨hlenN, hcurN, h0N⟩ := hinvN
      have hundo := undo_iterate ps.length hpos (applyAppends initialState ps)
        hidxN'
      rw [hundo, h0N]
      refine ⟨rfl, rfl, ?_, ?_⟩
      · have hredo := redo_iterate ps.length hpos
          { applyAppends initialState ps with
            historyIndex := 0
            nodes := ([] : List Node)
            isPathClosed := false }
          (by
            simp only []
            omega)
        rw [hredo]
        simp only []
        rw [show (0 : ℕ) + ps.length = ps.length from by omega]
        rw [show ({ applyAppends initialState ps with
            historyIndex := 0, nodes := ([] : List Node),
            isPathClosed := false } : EditorState).history =
          (applyAppends initialState ps).history from rfl]
        rw [← hidxN', hcurN]
      · have hredo := redo_iterate ps.length hpos
          { applyAppends initialState ps with
            historyIndex := 0
            nodes := ([] : List Node)
            isPathClosed := false }
          (by
            simp only []
            omega)
        rw [hredo]
        simp only []
        rw [show (0 : ℕ) + ps.length = ps.length from by omega]
        rw [show ({ applyAppends initialState ps with
            historyIndex := 0, nodes := ([] : List Node),
            isPathClosed := false } : EditorState).history =
          (applyAppends initialState ps).history from rfl]
        rw [← hidxN', hcurN]

/-- Witness for `history_undo_redo_spec`: the initial state's index is in
range; `undo` there is a no-op, and one append followed by one undo returns
to the empty path. -/
theorem history_undo_redo_spec_witness :
    initialState.historyIndex < initialState.history.length ∧
    undo initialState = initialState ∧
    (undo^[1] (applyAppends initialState [⟨5, 5⟩])).nodes = [] :=
  ⟨by norm_num [initialState],
   (history_undo_redo_spec initialState [] false [⟨5, 5⟩]
      (by norm_num [initialState])).2.1 rfl,
   (history_undo_redo_spec initialState [] false [⟨5, 5⟩]
      (by norm_num [initialState])).2.2.2.1⟩

/-- The fueled body walk visits exactly the `d` nodes from `cur` (cyclically)
up to, but excluding, the stop index `a`, provided the fuel covers the
distance `d` and `a` is not hit earlier. -/
theorem bodyPathAux_eq (nodes : List Node) (a : ℕ) :
    ∀ (d fuel cur : ℕ), cur < nodes.length → d ≤ fuel →
      (cur + d) % nodes.length = a →
      (∀ k, k < d → (cur + k) % nodes.length ≠ a) →
      bodyPathAux nodes a fuel cur =
        (List.range d).map (fun k => getNode nodes ((cur + k) % nodes.length)) := by
  intro d
  induction d with
  | zero =>
    intro fuel cur hcur _ hreach _
    have hcur_a : cur = a := by
      rwa [Nat.add_zero, Nat.mod_eq_of_lt hcur] at hreach
    cases fuel with
    | zero => simp [bodyPathAux]
    | succ f => simp [bodyPathAux, hcur_a]
  | succ d ih =>
    intro fuel cur hcur hdf hreach hmiss
    have hne : cur ≠ a := by
      have h0 := hmiss 0 (by omega)
      rwa [Nat.add_zero, Nat.mod_eq_of_lt hcur] at h0
    have hlen0 : 0 < nodes.length := by omega
    cases fuel with
    | zero => omega
    | succ f =>
      simp only [bodyPathAux, if_neg hne]
      have hcur' : (cur + 1) % nodes.length < nodes.length := Nat.mod_lt _ hlen0
      have hreach' : ((cur + 1) % nodes.length + d) % nodes.length = a := by
        rw [Nat.mod_add_mod, show cur + 1 + d = cur + (d + 1) from by omega]
        exact hreach
      have hmiss' : ∀ k, k < d →
          ((cur + 1) % nodes.length + k) % nodes.length ≠ a := by
        intro k hk
        rw [Nat.mod_add_mod, show cur + 1 + k = cur + (k + 1) from by omega]
        exact hmiss (k + 1) (by omega)
      rw [ih f ((cur + 1) % nodes.length) hcur' (by omega) hreach' hmiss']
      rw [List.range_succ_eq_map]
      simp only [List.map_cons, List.map_map]
      congr 1
      · rw [Nat.add_zero, Nat.mod_eq_of_lt hcur]
      · apply List.map_congr_left
        intro k _
        simp only [Function.comp_apply]
        congr 1
        rw [Nat.mod_add_mod]
        congr 1
        omega

/-- The body of the symmetry operation: from `B = (a+1) % n` cyclically
forward through all other nodes, ending with node `a` itself. -/
theorem bodyPath_eq (nodes : List Node) (a : ℕ) (ha : a < nodes.length)
    (h2 : 2 ≤ nodes.length) :
    bodyPath nodes a ((a + 1) % nodes.length) =
      (List.range (nodes.length - 1)).map
        (fun k => getNode nodes
          (((a + 1) % nodes.length + k) % nodes.length)) ++
      [getNode nodes a] := by
  rw [bodyPath]
  congr 1
  apply bodyPathAux_eq nodes a (nodes.length - 1) nodes.length
    ((a + 1) % nodes.length) (Nat.mod_lt _ (by omega)) (by omega)
  · rw [Nat.mod_add_mod,
      show a + 1 + (nodes.length - 1) = a + nodes.length from by omega,
      Nat.add_mod_right]
    exact Nat.mod_eq_of_lt ha
  · intro k hk
    rw [Nat.mod_add_mod]
    intro hcontra
    rcases Nat.lt_or_ge (a + 1 + k) nodes.length with hlt | hge
    · rw [Nat.mod_eq_of_lt hlt] at hcontra
      omega
    · have hmodval : (a + 1 + k) % nodes.length = a + 1 + k - nodes.length := by
        rw [Nat.mod_eq_sub_mod hge, Nat.mod_eq_of_lt (by omega)]
      rw [hmodval] at hcontra
      omega

/-- The intermediate nodes of the symmetry operation (the body with its two
endpoints removed) are exactly the cyclic run of `n - 2` original nodes
starting just after `B`. -/
theorem intermediates_eq (nodes : List Node) (a : ℕ) (ha : a < nodes.length)
    (h3 : 3 ≤ nodes.length) :
    ((bodyPath nodes a ((a + 1) % nodes.length)).drop 1).take
        ((bodyPath nodes a ((a + 1) % nodes.length)).length - 2) =
      cyclicSlice nodes (((a + 1) % nodes.length + 1) % nodes.length)
        (nodes.length - 2) := by
  rw [bodyPath_eq nodes a ha (by omega)]
  have hwl : ((List.range (nodes.length - 1)).map
      (fun k => getNode nodes
        (((a + 1) % nodes.length + k) % nodes.length))).length =
      nodes.length - 1 := by simp
  rw [List.drop_append_of_le_length (by rw [hwl]; omega)]
  have hdrop : ((List.range (nodes.length - 1)).map
      (fun k => getNode nodes
        (((a + 1) % nodes.length + k) % nodes.length))).drop 1 =
      cyclicSlice nodes (((a + 1) % nodes.length + 1) % nodes.length)
        (nodes.length - 2) := by
    rw [show nodes.length - 1 = (nodes.length - 2) + 1 from by omega,
      List.range_succ_eq_map]
    simp only [List.map_cons, List.drop_succ_cons, List.drop_nil,
      List.drop_zero, List.map_map]
    rw [cyclicSlice]
    apply List.map_congr_left
    intro k _
    simp only [Function.comp_apply]
    congr 1
    conv_lhs => rw [Nat.mod_add_mod]
    conv_rhs => rw [Nat.mod_add_mod, Nat.add_assoc, Nat.mod_add_mod]
    congr 1
    omega
  have hcount : ((List.range (nodes.length - 1)).map
      (fun k => getNode nodes
        (((a + 1) % nodes.length + k) % nodes.length)) ++
        [getNode nodes a]).length - 2 = nodes.length - 2 := by
    simp
    omega
  rw [hcount, hdrop]
  apply List.take_left'
  simp [cyclicSlice]

/-- Structure of the merged node list: seam node `A'`, the reflected,
reversed, handle-swapped intermediates, seam node `B'`, then the original
intermediates. -/
theorem reflectAndMergeNodes_eq (nodes : List Node) (a : ℕ)
    (ha : a < nodes.length) (h3 : 3 ≤ nodes.length) :
    reflectAndMergeNodes nodes a =
      { getNode nodes a with
        ctrl2 := reflectPoint (getNode nodes a).anchor
          (getNode nodes ((a + 1) % nodes.length)).anchor
          (getNode nodes a).ctrl1
        type := NodeType.smooth } ::
      ((cyclicSlice nodes (((a + 1) % nodes.length + 1) % nodes.length)
          (nodes.length - 2)).map
          (reflectNode (getNode nodes a).anchor
            (getNode nodes ((a + 1) % nodes.length)).anchor)).reverse.map
        (fun node => { node with ctrl1 := node.ctrl2, ctrl2 := node.ctrl1 }) ++
      { getNode nodes ((a + 1) % nodes.length) with
        ctrl1 := reflectPoint (getNode nodes a).anchor
          (getNode nodes ((a + 1) % nodes.length)).anchor
          (getNode nodes ((a + 1) % nodes.length)).ctrl2
        type := NodeType.smooth } ::
      cyclicSlice nodes (((a + 1) % nodes.length + 1) % nodes.length)
        (nodes.length - 2) := by
  simp only [reflectAndMergeNodes]
  rw [intermediates_eq nodes a ha h3]

/-- C1: on a closed path with at least 3 nodes, when the scan picks edge `i`
and that edge passes the straightness test, `handleSymmetryEdgePick`
replaces the node list by
`[A', ...reversedReflectedIntermediates, B', ...originalIntermediates]`
(where the intermediates are the `n - 2` original nodes cyclically strictly
between the axis endpoints `B` and `A`, the mirrored ones are reflected
across the line `A.anchor–B.anchor`, reversed, with `ctrl1`/`ctrl2`
swapped, and both seam nodes become `smooth` with the handle facing the
mirrored body reflected), giving `2·(n-2) + 2` nodes, and the path stays
closed. -/
theorem reflectAndMerge_structure (st : EditorState) (point : Point) (i : ℕ)
    (hclosed : st.isPathClosed = true) (hn : 3 ≤ st.nodes.length)
    (hscan : closestEdge st.nodes point = some i)
    (hstraight : isStraightEdge (getNode st.nodes i).anchor
      (getNode st.nodes ((i + 1) % st.nodes.length)).anchor
      (getNode st.nodes i).ctrl2
      (getNode st.nodes ((i + 1) % st.nodes.length)).ctrl1 = true) :
    (handleSymmetryEdgePick st point).1.nodes =
      { getNode st.nodes i with
        ctrl2 := reflectPoint (getNode st.nodes i).anchor
          (getNode st.nodes ((i + 1) % st.nodes.length)).anchor
          (getNode st.nodes i).ctrl1
        type := NodeType.smooth } ::
      ((cyclicSlice st.nodes (((i + 1) % st.nodes.length + 1) % st.nodes.length)
          (st.nodes.length - 2)).map
          (reflectNode (getNode st.nodes i).anchor
            (getNode st.nodes ((i + 1) % st.nodes.length)).anchor)).reverse.map
        (fun node => { node with ctrl1 := node.ctrl2, ctrl2 := node.ctrl1 }) ++
      { getNode st.nodes ((i + 1) % st.nodes.length) with
        ctrl1 := reflectPoint (getNode st.nodes i).anchor
          (getNode st.nodes ((i + 1) % st.nodes.length)).anchor
          (getNode st.nodes ((i + 1) % st.nodes.length)).ctrl2
        type := NodeType.smooth } ::
      cyclicSlice st.nodes (((i + 1) % st.nodes.length + 1) % st.nodes.length)
        (st.nodes.length - 2) ∧
    (handleSymmetryEdgePick st point).1.nodes.length =
      2 * (st.nodes.length - 2) + 2 ∧
    (handleSymmetryEdgePick st point).1.isPathClosed = true := by
  have hi : i < st.nodes.length := closestEdge_lt st.nodes point i hscan
  have hred : handleSymmetryEdgePick st point =
      ({ updateStateAndHistory st (reflectAndMergeNodes st.nodes i) true with
          symmetryState := SymmetryState.inactive }, none) := by
    rw [handleSymmetryEdgePick, if_neg (by
      rintro (h | h)
      · rw [hclosed] at h
        cases h
      · omega), hscan]
    simp only [hstraight]
    rw [if_neg (by simp)]
  rw [hred]
  refine ⟨?_, ?_, rfl⟩
  · show reflectAndMergeNodes st.nodes i = _
    exact reflectAndMergeNodes_eq st.nodes i hi hn
  · show (reflectAndMergeNodes st.nodes i).length = _
    rw [reflectAndMergeNodes_eq st.nodes i hi hn]
    simp only [List.length_cons, List.length_append, List.length_map,
      List.length_reverse, cyclicSlice, List.length_range]
    omega

/-- Every read of the degenerate path yields the all-zero node (out-of-range
reads return the default node, which is also all-zero). -/
theorem getNode_zState (j : ℕ) : getNode zState.nodes j = zeroNode := by
  rcases j with _ | j
  · rfl
  rcases j with _ | j
  · rfl
  rcases j with _ | j
  · rfl
  · show (zState.nodes).getD (j + 3) dfltNode = zeroNode
    rw [List.getD_eq_default _ _ (by simp [zState])]
    rfl

/-- The cubic through four copies of the origin is constantly the origin. -/
theorem bez_zero (t : ℚ) :
    getPointOnCubicBezier t ⟨0, 0⟩ ⟨0, 0⟩ ⟨0, 0⟩ ⟨0, 0⟩ = ⟨0, 0⟩ := by
  simp [getPointOnCubicBezier]

/-- On the all-zero configuration, a sample step keeps the `(0, 0)` best. -/
theorem sampleStep_zero_some (x : ℕ) :
    closestSampleStep ⟨0, 0⟩ ⟨0, 0⟩ ⟨0, 0⟩ ⟨0, 0⟩ ⟨0, 0⟩
      (some ((0 : ℚ), (0 : ℚ))) x = some (0, 0) := by
  simp [closestSampleStep, bez_zero, distSq]

/-- Folding further sample steps keeps the `(0, 0)` best. -/
theorem sampleFold_zero (l : List ℕ) :
    l.foldl (closestSampleStep ⟨0, 0⟩ ⟨0, 0⟩ ⟨0, 0⟩ ⟨0, 0⟩ ⟨0, 0⟩)
      (some (0, 0)) = some (0, 0) := by
  induction l with
  | nil => rfl
  | cons x xs ih =>
    rw [List.foldl_cons, sampleStep_zero_some]
    exact ih

/-- The nearest-point sampler on the all-zero configuration returns
squared distance 0 at `t = 0`. -/
theorem findClosest_zero :
    findClosestPointOnCubicBezier ⟨0, 0⟩ ⟨0, 0⟩ ⟨0, 0⟩ ⟨0, 0⟩ ⟨0, 0⟩ =
      (0, 0) := by
  have hdef : findClosestPointOnCubicBezier ⟨0, 0⟩ ⟨0, 0⟩ ⟨0, 0⟩ ⟨0, 0⟩ ⟨0, 0⟩ =
      match (List.range 31).foldl
        (closestSampleStep ⟨0, 0⟩ ⟨0, 0⟩ ⟨0, 0⟩ ⟨0, 0⟩ ⟨0, 0⟩) none with
      | some best => best
      | none => (0, 0) := rfl
  have h31 : List.range 31 = 0 :: (List.range 30).map Nat.succ := by
    rw [show (31 : ℕ) = 30 + 1 from rfl, List.range_succ_eq_map]
  have hstep0 : closestSampleStep ⟨0, 0⟩ ⟨0, 0⟩ ⟨0, 0⟩ ⟨0, 0⟩ ⟨0, 0⟩ none 0 =
      some (0, 0) := by
    norm_num [closestSampleStep, bez_zero, distSq]
  rw [hdef, h31, List.foldl_cons, hstep0, sampleFold_zero]

/-- On the degenerate path, an edge step keeps the `(0, 0)` accumulator. -/
theorem edgeStep_zero_some (j : ℕ) :
    closestEdgeStep zState.nodes ⟨0, 0⟩ (some ((0 : ℚ), (0 : ℕ))) j =
      some (0, 0) := by
  simp [closestEdgeStep, segPoints, getNode_zState, zeroNode, findClosest_zero]

/-- Folding further edge steps keeps the `(0, 0)` accumulator. -/
theorem edgeFold_zero (l : List ℕ) :
    l.foldl (closestEdgeStep zState.nodes ⟨0, 0⟩) (some (0, 0)) =
      some (0, 0) := by
  induction l with
  | nil => rfl
  | cons x xs ih =>
    rw [List.foldl_cons, edgeStep_zero_some]
    exact ih

/-- On the degenerate path, the scan picks edge 0. -/
theorem closestEdge_zState : closestEdge zState.nodes ⟨0, 0⟩ = some 0 := by
  have hdef : closestEdge zState.nodes ⟨0, 0⟩ =
      ((List.range zState.nodes.length).foldl
        (closestEdgeStep zState.nodes ⟨0, 0⟩) none).map (fun best => best.2) :=
    rfl
  have h3 : List.range zState.nodes.length =
      0 :: (List.range 2).map Nat.succ := by
    rw [show zState.nodes.length = 2 + 1 from rfl, List.range_succ_eq_map]
  have hstep0 : closestEdgeStep zState.nodes ⟨0, 0⟩ none 0 = some (0, 0) := by
    norm_num [closestEdgeStep, segPoints, getNode_zState, zeroNode,
      findClosest_zero]
  rw [hdef, h3, List.foldl_cons, hstep0, edgeFold_zero]
  rfl

/-- Witness for `reflectAndMerge_structure`: the degenerate closed 3-node
state satisfies every hypothesis (the scan picks edge 0 and the edge passes
the straightness test), and the merged path has `2·(3-2)+2 = 4` nodes and
stays closed. -/
theorem reflectAndMerge_structure_witness :
    zState.isPathClosed = true ∧ 3 ≤ zState.nodes.length ∧
    closestEdge zState.nodes ⟨0, 0⟩ = some 0 ∧
    (handleSymmetryEdgePick zState ⟨0, 0⟩).1.nodes.length =
      2 * (zState.nodes.length - 2) + 2 ∧
    (handleSymmetryEdgePick zState ⟨0, 0⟩).1.isPathClosed = true :=
  ⟨rfl, by norm_num [zState], closestEdge_zState,
   (reflectAndMerge_structure zState ⟨0, 0⟩ 0 rfl (by norm_num [zState])
      closestEdge_zState (by norm_num [isStraightEdge, getNode_zState,
        zeroNode, Bool.and_eq_true, decide_eq_true_eq])).2.1,
   (reflectAndMerge_structure zState ⟨0, 0⟩ 0 rfl (by norm_num [zState])
      closestEdge_zState (by norm_num [isStraightEdge, getNode_zState,
        zeroNode, Bool.and_eq_true, decide_eq_true_eq])).2.2⟩

end PatternSVG

